import Mathlib

/-!
# Verification of the olli accessibility-tree builder

A shallow embedding of `packages/core/src/Structure/index.ts` (the tree
builder, interval binner, data filter and description token generator) and
proofs of the specification's claims about it.

JavaScript runtime values are modelled explicitly: numbers are rationals
extended with a `nan` point (the inputs under study never produce
infinities; where JavaScript would produce one the model notes it), dates
are epoch milliseconds (an invalid date carries `nan`), and `undefined`
is a value of its own.  Fallible code (JavaScript `throw`) is modelled
with `Except String`.
-/

attribute [local semireducible] Rat.add Rat.sub Rat.mul Rat.inv

namespace Olli

/-- A JavaScript number: a rational, or `NaN`.  The binner's arithmetic can
produce `NaN` (out-of-bounds array reads yield `undefined`, and
`undefined - x` is `NaN`), which the claims C5 and C10 are about. -/
inductive JSNum where
  | nan : JSNum
  | val : ℚ → JSNum
deriving DecidableEq, Repr

/-- JavaScript `+` on two numbers (`NaN` propagates). -/
def jsNumAdd : JSNum → JSNum → JSNum
  | .val a, .val b => .val (a + b)
  | _, _ => .nan

/-- JavaScript `-` on two numbers (`NaN` propagates). -/
def jsNumSub : JSNum → JSNum → JSNum
  | .val a, .val b => .val (a - b)
  | _, _ => .nan

/-- JavaScript `/` on two numbers.  `0/0` is `NaN`.  (JavaScript gives
`±Infinity` for `x/0` with `x ≠ 0`; the only division in the source is
`sum / selected.length`, where a zero divisor forces a zero numerator, so
that case is unreachable and the model maps it to `nan` as well.) -/
def jsNumDiv : JSNum → JSNum → JSNum
  | .val a, .val b => if b = 0 then .nan else .val (a / b)
  | _, _ => .nan

/-- JavaScript `Math.max` (`NaN` propagates). -/
def jsNumMax : JSNum → JSNum → JSNum
  | .val a, .val b => .val (max a b)
  | _, _ => .nan

/-- JavaScript `Math.min` (`NaN` propagates). -/
def jsNumMin : JSNum → JSNum → JSNum
  | .val a, .val b => .val (min a b)
  | _, _ => .nan

/-- JavaScript `Math.round`: round half toward positive infinity. -/
def jsNumRound : JSNum → JSNum
  | .nan => .nan
  | .val q => .val (⌊q + 1/2⌋ : ℤ)

/-- Numeric `<`: false when either side is `NaN`. -/
def jsNumLt : JSNum → JSNum → Bool
  | .val a, .val b => decide (a < b)
  | _, _ => false

/-- Numeric `>=` (JavaScript evaluates `x >= y` as "not `x < y`", with any
`NaN` giving false). -/
def jsNumGe : JSNum → JSNum → Bool
  | .val a, .val b => decide (b ≤ a)
  | _, _ => false

/-- Rendering of a number by JavaScript string interpolation.  Faithful on
integers and `NaN`; JavaScript's shortest-round-trip float formatting for
non-integers is approximated (no claim depends on it). -/
def jsNumToString : JSNum → String
  | .nan => "NaN"
  | .val q => if q.den = 1 then toString q.num else toString q.num ++ "/" ++ toString q.den

/-- Parses the integral part of a digit run.  Returns the value and the
remaining characters, or `none` if the run is empty. -/
def parseDigits (cs : List Char) : Option (ℕ × List Char) :=
  let ds := cs.takeWhile Char.isDigit
  if ds.isEmpty then none
  else some (ds.foldl (fun a c => a * 10 + (c.toNat - 48)) 0, cs.dropWhile Char.isDigit)

/-- Parses a decimal literal `digits [. digits]` (also `.digits` and
`digits.`), returning its value. -/
def parseDecimal (cs : List Char) : Option (ℚ × List Char) :=
  match parseDigits cs with
  | some (n, rest) =>
    match rest with
    | '.' :: rest' =>
      match parseDigits rest' with
      | some (f, rest'') =>
        let k := (rest'.takeWhile Char.isDigit).length
        some ((n : ℚ) + (f : ℚ) / ((10 : ℚ) ^ k), rest'')
      | none => some ((n : ℚ), rest')
    | _ => some ((n : ℚ), rest)
  | none =>
    match cs with
    | '.' :: rest' =>
      match parseDigits rest' with
      | some (f, rest'') =>
        let k := (rest'.takeWhile Char.isDigit).length
        some ((f : ℚ) / ((10 : ℚ) ^ k), rest'')
      | none => none
    | _ => none

/-- Parses an optional exponent suffix `e±digits`. -/
def parseExponent (cs : List Char) : Option (ℤ × List Char) :=
  match cs with
  | 'e' :: rest | 'E' :: rest =>
    match rest with
    | '-' :: rest' => (parseDigits rest').map fun (n, r) => (-(n : ℤ), r)
    | '+' :: rest' => (parseDigits rest').map fun (n, r) => ((n : ℤ), r)
    | _ => (parseDigits rest).map fun (n, r) => ((n : ℤ), r)
  | _ => none

/-- Strips leading and trailing whitespace (JavaScript's `ToNumber`
ignores surrounding whitespace). -/
def jsTrim (s : String) : String :=
  String.mk (((s.toList.dropWhile Char.isWhitespace).reverse.dropWhile
    Char.isWhitespace).reverse)

/-- JavaScript `Number(string)`: the empty (or all-whitespace) string is 0;
a signed decimal literal with optional exponent is its value; anything
else is `NaN`.  (Hex/binary literals and `Infinity` are not modelled; no
input under study uses them.) -/
def jsStringToNumber (s : String) : JSNum :=
  let t := jsTrim s
  if t = "" then .val 0 else
  let cs := t.toList
  let (sign, cs) : ℚ × List Char :=
    match cs with
    | '-' :: rest => (-1, rest)
    | '+' :: rest => (1, rest)
    | _ => (1, cs)
  match parseDecimal cs with
  | some (q, rest) =>
    match rest with
    | [] => .val (sign * q)
    | _ =>
      match parseExponent rest with
      | some (e, []) => .val (sign * q * (10 : ℚ) ^ e)
      | _ => .nan
  | none => .nan

/-- `String.replaceAll(',', '')` on the tick strings. -/
def stripCommas (s : String) : String :=
  String.mk (s.toList.filter (· ≠ ','))

/-- Civil calendar from a day count relative to 1970-01-01 (Howard
Hinnant's algorithm); returns `(year, month, day)`.  JavaScript's
`getFullYear` uses the host's local timezone; the model uses UTC. -/
def civilFromDays (z : ℤ) : ℤ × ℤ × ℤ :=
  let z := z + 719468
  let era := Int.fdiv z 146097
  let doe := z - era * 146097
  let yoe := Int.fdiv (doe - Int.fdiv doe 1460 + Int.fdiv doe 36524 - Int.fdiv doe 146096) 365
  let y := yoe + era * 400
  let doy := doe - (365 * yoe + Int.fdiv yoe 4 - Int.fdiv yoe 100)
  let mp := Int.fdiv (5 * doy + 2) 153
  let d := doy - Int.fdiv (153 * mp + 2) 5 + 1
  let m := mp + (if mp < 10 then 3 else -9)
  (if m ≤ 2 then y + 1 else y, m, d)

/-- `Date.prototype.getFullYear` from the epoch-millisecond time: the
civil year of the day containing the instant; `NaN` for an invalid date. -/
def jsGetFullYear : JSNum → JSNum
  | .nan => .nan
  | .val q => .val (((civilFromDays (Int.fdiv ⌊q⌋ 86400000)).1 : ℤ) : ℚ)

/-- Three-letter month names used by date rendering. -/
def monthName (m : ℤ) : String :=
  match m with
  | 1 => "Jan" | 2 => "Feb" | 3 => "Mar" | 4 => "Apr" | 5 => "May" | 6 => "Jun"
  | 7 => "Jul" | 8 => "Aug" | 9 => "Sep" | 10 => "Oct" | 11 => "Nov" | _ => "Dec"

/-- `String(someDate)`.  JavaScript renders a long locale string such as
"Thu Jan 01 1970 00:00:00 GMT+0000 (…)"; the model renders an abbreviated
form.  The only property the source consumes is the rendering's length
(it tests `=== 4`, and a date rendering is always longer), which the
model preserves. -/
def jsDateToString : JSNum → String
  | .nan => "Invalid Date"
  | .val q =>
    let (y, m, d) := civilFromDays (Int.fdiv ⌊q⌋ 86400000)
    monthName m ++ " " ++ toString d ++ " " ++ toString y ++ " 00:00:00 GMT"

/-- A JavaScript runtime value as it appears in data rows, guide values
and interval bounds: `undefined`, a number, a string, or a `Date`
(carried as its epoch-millisecond time; `nan` is an invalid date). -/
inductive OlliValue where
  | undef : OlliValue
  | num (n : JSNum) : OlliValue
  | str (s : String) : OlliValue
  | date (t : JSNum) : OlliValue
deriving DecidableEq, Repr

namespace OlliValue

/-- JavaScript `ToNumber` coercion (`valueOf` for dates). -/
def toNumber : OlliValue → JSNum
  | .undef => .nan
  | .num n => n
  | .str s => jsStringToNumber s
  | .date t => t

/-- JavaScript `String(v)` / template interpolation. -/
def jsToString : OlliValue → String
  | .undef => "undefined"
  | .num n => jsNumToString n
  | .str s => s
  | .date t => jsDateToString t

/-- `v instanceof Date`. -/
def isDate : OlliValue → Bool
  | .date _ => true
  | _ => false

/-- `typeof v === 'string'` (`v instanceof String` never occurs here). -/
def isString : OlliValue → Bool
  | .str _ => true
  | _ => false

/-- JavaScript truthiness for the values occurring here. -/
def jsTruthy : OlliValue → Bool
  | .undef => false
  | .num .nan => false
  | .num (.val q) => decide (q ≠ 0)
  | .str s => decide (s ≠ "")
  | .date _ => true

end OlliValue

/-- JavaScript `<` (abstract relational comparison): string comparison
when both operands are strings, numeric comparison (false on `NaN`)
otherwise; dates coerce to their time value. -/
def jsLt (a b : OlliValue) : Bool :=
  match a, b with
  | .str s, .str t => decide (s < t)
  | _, _ => jsNumLt a.toNumber b.toNumber

/-- JavaScript `>=`: the negation of `<` except that `NaN` makes it
false. -/
def jsGe (a b : OlliValue) : Bool :=
  match a, b with
  | .str s, .str t => decide (t ≤ s)
  | _, _ => jsNumGe a.toNumber b.toNumber

/-- JavaScript binary `+`: string concatenation when either operand's
primitive is a string (a `Date` coerces to a string under default-hint
`ToPrimitive`), numeric addition otherwise. -/
def jsAdd (a b : OlliValue) : OlliValue :=
  match a, b with
  | .str s, v => .str (s ++ v.jsToString)
  | v, .str s => .str (v.jsToString ++ s)
  | .date t, v => .str (jsDateToString t ++ v.jsToString)
  | v, .date t => .str (v.jsToString ++ jsDateToString t)
  | a, b => .num (jsNumAdd a.toNumber b.toNumber)

/-- JavaScript binary `-`: always numeric. -/
def jsSub (a b : OlliValue) : OlliValue :=
  .num (jsNumSub a.toNumber b.toNumber)

/-- A data row: an association list from field name to value.  Reading an
absent field yields `undefined`, as in JavaScript. -/
def Datum := List (String × OlliValue)
deriving DecidableEq, Repr

/-- `datum[field]`. -/
def jsGet (d : Datum) (field : String) : OlliValue :=
  ((List.lookup field (d : List (String × OlliValue)))).getD (.undef)

/-- `array[i]` (out of bounds yields `undefined`). -/
def jsIndex (l : List OlliValue) (i : ℕ) : OlliValue :=
  l.getD i (.undef)

/-! ## Data Filter (`filterInterval` and the inline equality filters) -/

/-- `filterInterval` from the source: keeps the rows whose field value
satisfies `value >= lowerBound && value < upperBound`; when the value is
a `Date` and both bounds render as 4-character strings, the date's year
replaces the value first. -/
def filterInterval (selection : List Datum) (field : String)
    (lowerBound upperBound : OlliValue) : List Datum :=
  selection.filter fun datum =>
    let value := jsGet datum field
    let value :=
      match value with
      | .date t =>
        if (lowerBound.jsToString.length = 4 ∧ upperBound.jsToString.length = 4) then
          OlliValue.num (jsGetFullYear t)
        else .date t
      | v => v
    jsGe value lowerBound && jsLt value upperBound

/-- The equality filter the builder applies inline for discrete axis
values, discrete legend values and facet entries:
`selected.filter(d => String(d[field]) === String(value))`. -/
def filterEquals (selection : List Datum) (field : String) (value : OlliValue) :
    List Datum :=
  selection.filter fun d => (jsGet d field).jsToString = value.jsToString

/-! ## Interval Binner (`axisValuesToIntervals`) -/

/-- `ensureAxisValuesNumeric` from the source: an all-string tick array is
parsed with `Number` after commas are stripped; an all-date array becomes
epoch times (with the date flag set); anything else passes through
unchanged — note that no branch reports an error. -/
def ensureAxisValuesNumeric (values : List OlliValue) : List OlliValue × Bool :=
  if values.all OlliValue.isString then
    (values.map (fun v =>
      match v with
      | .str s => OlliValue.num (jsStringToNumber (stripCommas s))
      | v => v), false)
  else if values.all OlliValue.isDate then
    (values.map (fun v =>
      match v with
      | .date t => OlliValue.num t
      | v => v), true)
  else
    (values, false)

/-- The `getEncodingValueIncrements` reduce callback from the source.
`array` is the whole tick array being reduced (JavaScript's fourth reduce
argument); `index = 0` stands for `reducedIndex === -1`. -/
def getEncodingValueIncrements (array : List OlliValue)
    (incrementArray : List (OlliValue × OlliValue)) (currentValue : OlliValue)
    (index : ℕ) : List (OlliValue × OlliValue) :=
  if index = 0 ∧ currentValue = .num (.val 0) then
    incrementArray
  else if index = 0 ∧ currentValue ≠ .num (.val 0) then
    let incrementDifference := jsSub (jsIndex array (index + 1)) currentValue
    let bounds := (jsSub currentValue incrementDifference, currentValue)
    incrementArray ++ [bounds]
  else if index = array.length - 1 then
    let incrementDifference := jsSub currentValue (jsIndex array (index - 1))
    let finalIncrement := jsAdd currentValue incrementDifference
    let bounds := (currentValue, finalIncrement)
    (incrementArray ++ [(jsIndex array (index - 1), currentValue)]) ++ [bounds]
  else
    let bounds := (jsIndex array (index - 1), jsIndex array index)
    incrementArray ++ [bounds]

/-- `Array.prototype.reduce` with the element index (JavaScript's third
callback argument). -/
def jsReduceIdx (f : β → α → ℕ → β) : List α → β → ℕ → β
  | [], acc, _ => acc
  | a :: as, acc, i => jsReduceIdx f as (f acc a i) (i + 1)

/-- `new Date(x)` for a numeric argument (`NaN` gives an invalid date;
the binner only constructs dates from numbers).  JavaScript's `TimeClip`
truncates toward zero. -/
def jsNewDate : OlliValue → OlliValue
  | .num .nan => .date .nan
  | .num (.val q) => .date (.val (if 0 ≤ q then (⌊q⌋ : ℚ) else (⌈q⌉ : ℚ)))
  | _ => .date .nan

/-- `axisValuesToIntervals` from the source: normalize the ticks, reduce
them into increment pairs, and convert back to dates when the input was
all dates. -/
def axisValuesToIntervals (values : List OlliValue) : List (OlliValue × OlliValue) :=
  let res := ensureAxisValuesNumeric values
  let increments := jsReduceIdx (getEncodingValueIncrements res.1) res.1 [] 0
  if res.2 then
    increments.map (fun p => (jsNewDate p.1, jsNewDate p.2))
  else
    increments

/-- Shorthand for a plain numeric tick/row value. -/
def qn (q : ℚ) : OlliValue := .num (.val q)

/-- The per-index contribution of `getEncodingValueIncrements`: the pairs
the callback appends to its accumulator at a given index. -/
def incContribution (array : List OlliValue) (currentValue : OlliValue)
    (index : ℕ) : List (OlliValue × OlliValue) :=
  if index = 0 ∧ currentValue = .num (.val 0) then
    []
  else if index = 0 ∧ currentValue ≠ .num (.val 0) then
    [(jsSub currentValue (jsSub (jsIndex array (index + 1)) currentValue), currentValue)]
  else if index = array.length - 1 then
    [(jsIndex array (index - 1), currentValue),
     (currentValue, jsAdd currentValue (jsSub currentValue (jsIndex array (index - 1))))]
  else
    [(jsIndex array (index - 1), jsIndex array index)]

/-- The concatenated contributions of a suffix of the tick array,
starting at a given index. -/
def incContribFrom (array : List OlliValue) :
    List OlliValue → ℕ → List (OlliValue × OlliValue)
  | [], _ => []
  | v :: vs, i => incContribution array v i ++ incContribFrom array vs (i + 1)

/-- The synthesized bucket above the last tick. -/
def lastBucket (array : List OlliValue) : OlliValue × OlliValue :=
  (jsIndex array (array.length - 1),
   jsAdd (jsIndex array (array.length - 1))
     (jsSub (jsIndex array (array.length - 1)) (jsIndex array (array.length - 2))))

/-- Closed form of the binner's reduce: an optional synthesized bucket
below the first tick, a bucket per adjacent tick pair, and a synthesized
bucket above the last tick. -/
def binnerClosedForm (array : List OlliValue) : List (OlliValue × OlliValue) :=
  match array with
  | [] => []
  | h :: t =>
    (if h = .num (.val 0) then []
     else [(jsSub h (jsSub (jsIndex (h :: t) 1) h), h)]) ++
    (h :: t).zip t ++
    (if t = [] then [] else [lastBucket (h :: t)])

/-! ## Data model of the visualization spec

The `OlliVisSpec` types live in `../Types`, which is not among the
provided sources; the structures below follow the spec (§3) and carry
exactly the fields the builder reads.  Axes and legends are both read
through unchecked casts from `Guide` in the source, so a single
structure carries the union of their fields. -/

/-- A guide's `type`: enumerated values or sorted tick values. -/
inductive GuideType where
  | discrete : GuideType
  | continuous : GuideType
deriving DecidableEq, Repr

/-- An axis or legend specification. -/
structure Guide where
  field : String
  title : Option String := none
  scaleType : Option String := none
  type : GuideType
  axisType : Option String := none
  channel : Option String := none
  values : List OlliValue
deriving DecidableEq, Repr

/-- A single chart. -/
structure Chart where
  mark : Option String := none
  axes : List Guide
  legends : List Guide
  data : List Datum
  title : Option String := none
  description : Option String := none
deriving DecidableEq, Repr

/-- A faceted chart; `charts` models the `Map` in insertion order. -/
structure FacetedChart where
  facetedField : String
  charts : List (String × Chart)
  data : List Datum
  title : Option String := none
  description : Option String := none
deriving DecidableEq, Repr

/-- The input spec: a tagged union of the two chart kinds. -/
inductive OlliVisSpec where
  | chart (c : Chart) : OlliVisSpec
  | facetedChart (fc : FacetedChart) : OlliVisSpec
deriving DecidableEq, Repr

/-- The raw data rows of a spec. -/
def OlliVisSpec.specData : OlliVisSpec → List Datum
  | .chart c => c.data
  | .facetedChart fc => fc.data

/-- The node types of the accessibility tree. -/
inductive NodeType where
  | multiView | chart | xAxis | yAxis | legend | grid | filteredData | data
deriving DecidableEq, Repr

/-- The description token categories. -/
inductive TokenType where
  | name | index | type | children | data | size | parent | aggregate
deriving DecidableEq, Repr

/-- A `filteredData` node's filter value: a discrete value, a 1-D
interval, or a grid cell's pair of intervals (the grid case of the
builder only ever constructs interval pairs, which is what the model
carries). -/
inductive FilterValue where
  | str (s : String) : FilterValue
  | interval (lo hi : OlliValue) : FilterValue
  | grid (x y : OlliValue × OlliValue) : FilterValue
deriving DecidableEq, Repr

/-- An accessibility tree node.  The source's `parent` field is a cyclic
back-reference; its only use is `node.parent?.type`, so construction
threads the parent's type separately instead (see `nodeToDesc`). -/
inductive ATNode where
  | mk (type : NodeType) (selected : List Datum)
      (filterValue : Option FilterValue) (gridIndex : Option (ℕ × ℕ))
      (description : List (TokenType × List String))
      (children : List ATNode) (tableKeys : Option (List String)) : ATNode

def ATNode.type : ATNode → NodeType
  | .mk t _ _ _ _ _ _ => t

def ATNode.selected : ATNode → List Datum
  | .mk _ s _ _ _ _ _ => s

def ATNode.filterValue : ATNode → Option FilterValue
  | .mk _ _ fv _ _ _ _ => fv

def ATNode.gridIndex : ATNode → Option (ℕ × ℕ)
  | .mk _ _ _ gi _ _ _ => gi

def ATNode.description : ATNode → List (TokenType × List String)
  | .mk _ _ _ _ d _ _ => d

def ATNode.children : ATNode → List ATNode
  | .mk _ _ _ _ _ cs _ => cs

def ATNode.tableKeys : ATNode → Option (List String)
  | .mk _ _ _ _ _ _ tk => tk

/-- The builder's output: root node plus the fields used. -/
structure AccessibilityTree where
  root : ATNode
  fieldsUsed : List String

/-! ## Description helpers (from `nodeToDesc` in the source) -/

/-- `a || b` for an optional string with a fallback (the empty string is
falsy). -/
def jsOrElse (a : Option String) (b : String) : String :=
  match a with
  | some s => if s = "" then b else s
  | none => b

/-- Truthiness of an optional string (`undefined` and `""` are falsy). -/
def jsSomeStr (a : Option String) : Bool :=
  match a with
  | some s => s ≠ ""
  | none => false

/-- Joins strings with a separator (`Array.prototype.join`). -/
def joinSep (sep : String) : List String → String
  | [] => ""
  | [x] => x
  | x :: xs => x ++ sep ++ joinSep sep xs

/-- `pluralize` from the source. -/
def pluralize (count : ℕ) (noun : String) : String :=
  toString count ++ " " ++ noun ++ (if count ≠ 1 then "s" else "")

/-- `guideTitle` from the source. -/
def guideTitle (g : Guide) : String :=
  "titled \"" ++ jsOrElse g.title g.field ++ "\""

def guideTypeStr : GuideType → String
  | .discrete => "discrete"
  | .continuous => "continuous"

/-- `axisScaleType` from the source: `${axis.scaleType || axis.type} scale`. -/
def axisScaleType (g : Guide) : String :=
  jsOrElse g.scaleType (guideTypeStr g.type) ++ " scale"

/-- `legendChannel` from the source. -/
def legendChannel (g : Guide) : String :=
  if jsSomeStr g.channel then "for " ++ g.channel.getD "" else ""

/-- `facetValueStr` from the source. -/
def facetValueStr (facetValue : Option String) : String :=
  if jsSomeStr facetValue then facetValue.getD "" else ""

/-- `indexStr` from the source. -/
def indexStr (idx len : Option ℕ) : String :=
  match idx, len with
  | some i, some n => toString (i + 1) ++ " of " ++ toString n
  | _, _ => ""

/-- Renders a rational to two decimal places (`toFixed(2)`). -/
def twoDecimalsString (q : ℚ) : String :=
  let c : ℤ := ⌊q * 100 + 1/2⌋
  let sign := if c < 0 then "-" else ""
  let n := c.natAbs
  sign ++ toString (n / 100) ++ "." ++ (if n % 100 < 10 then "0" else "") ++
    toString (n % 100)

/-- Modelled from the spec: `fmtValue` is imported from `../utils`, which
is not among the provided sources.  Per the spec (§4.4): dates render as
"{Month} {Day}, {Year}", non-integer numbers render to 2 decimal
places, and other values render as-is (JavaScript interpolation renders
`undefined` as "undefined" and `NaN` as "NaN"). -/
def fmtValue : OlliValue → String
  | .date .nan => "Invalid Date"
  | .date (.val q) =>
    let ymd := civilFromDays (Int.fdiv ⌊q⌋ 86400000)
    monthName ymd.2.1 ++ " " ++ toString ymd.2.2 ++ ", " ++ toString ymd.1
  | .num .nan => "NaN"
  | .num (.val q) => if q.den = 1 then toString q.num else twoDecimalsString q
  | .str s => s
  | .undef => "undefined"

/-- `filteredValues` from the source (the leading falsy check makes an
absent filter value and the empty string render as ""). -/
def filteredValues : Option FilterValue → String
  | none => ""
  | some (.str s) => if s = "" then "" else "\"" ++ fmtValue (.str s) ++ "\""
  | some (.interval a b) => fmtValue a ++ " to " ++ fmtValue b
  | some (.grid x y) =>
    -- unreachable from the builder (a grid filter value only reaches
    -- `filteredValuesGrid`); JavaScript would stringify the two nested
    -- two-element arrays and join them
    (OlliValue.jsToString x.1 ++ "," ++ OlliValue.jsToString x.2) ++ " to " ++
      (OlliValue.jsToString y.1 ++ "," ++ OlliValue.jsToString y.2)

/-- `filteredValuesGrid` from the source.  The non-grid arms model
JavaScript's indexing `gridFilterValues[0]` / `[1]` on a value of the
wrong shape; they are unreachable from the builder. -/
def filteredValuesGrid : Option FilterValue → String
  | none => ""
  | some (.grid x y) =>
    "in " ++ filteredValues (some (.interval x.1 x.2)) ++ " and " ++
      filteredValues (some (.interval y.1 y.2))
  | some (.interval a b) =>
    "in " ++ (if a.jsTruthy then "\"" ++ fmtValue a ++ "\"" else "") ++ " and " ++
      (if b.jsTruthy then "\"" ++ fmtValue b ++ "\"" else "")
  | some (.str s) =>
    let charAt : ℕ → String := fun i =>
      match s.toList.drop i with
      | [] => ""
      | c :: _ => String.mk [c]
    "in " ++ (if charAt 0 ≠ "" then "\"" ++ charAt 0 ++ "\"" else "") ++ " and " ++
      (if charAt 1 ≠ "" then "\"" ++ charAt 1 ++ "\"" else "")

/-- The chart/faceted-chart title field. -/
def chartTitleOf : OlliVisSpec → Option String
  | .chart c => c.title
  | .facetedChart fc => fc.title

/-- `chartTitle` from the source:
`(chart.title || facetValue) ? `"${chart.title || facetValue}"` : ''`. -/
def chartTitle (spec : OlliVisSpec) (facetValue : Option String) : String :=
  if jsSomeStr (chartTitleOf spec) then
    "\"" ++ (chartTitleOf spec).getD "" ++ "\""
  else if jsSomeStr facetValue then
    "\"" ++ facetValue.getD "" ++ "\""
  else ""

/-- `chartType` from the source.  On a faceted spec `chart.mark` is
`undefined`, which is falsy, so the result is the empty string. -/
def chartTypeStr : OlliVisSpec → String
  | .chart c =>
    if c.mark = some "point" then
      if c.axes.all (fun a => a.type = .continuous) then "scatterplot"
      else "dot plot"
    else if jsSomeStr c.mark then c.mark.getD "" ++ " chart" else ""
  | .facetedChart _ => ""

/-- `averageValue` from the source: `Math.round` of the mean of the axis
field over the selected rows (an empty selection gives `0/0 = NaN`,
which renders as "NaN" without throwing). -/
def averageValue (node : ATNode) (axis : Guide) : String :=
  if axis.scaleType ≠ some "quantitative" then "" else
    let sum := node.selected.foldl
      (fun a b => jsNumAdd a (OlliValue.toNumber (jsGet b axis.field))) (.val 0)
    jsNumToString (jsNumRound (jsNumDiv sum (.val node.selected.length)))

/-- `maximumValue` from the source: a fold seeded with
`Number(node.selected[0][axis.field])` — reading `selected[0]` of an
empty selection throws. -/
def maximumValue (node : ATNode) (axis : Guide) : Except String String :=
  if axis.scaleType ≠ some "quantitative" then .ok "" else
    match node.selected with
    | [] => .error "TypeError: cannot read properties of undefined"
    | d0 :: _ =>
      .ok (jsNumToString (node.selected.foldl
        (fun a b => jsNumMax a (OlliValue.toNumber (jsGet b axis.field)))
        (OlliValue.toNumber (jsGet d0 axis.field))))

/-- `minimumValue` from the source; same empty-selection hazard as
`maximumValue`. -/
def minimumValue (node : ATNode) (axis : Guide) : Except String String :=
  if axis.scaleType ≠ some "quantitative" then .ok "" else
    match node.selected with
    | [] => .error "TypeError: cannot read properties of undefined"
    | d0 :: _ =>
      .ok (jsNumToString (node.selected.foldl
        (fun a b => jsNumMin a (OlliValue.toNumber (jsGet b axis.field)))
        (OlliValue.toNumber (jsGet d0 axis.field))))

/-- The `datum` helper of the `data` token: renders every `tableKeys`
field of the row.  With no `tableKeys` the optional chain yields
`undefined`; with keys present but no row, reading a field of
`undefined` throws (only possible for an empty `selected`). -/
def datumDesc (row : Option Datum) (node : ATNode) : Except String String :=
  match node.tableKeys with
  | none => .ok "undefined"
  | some keys =>
    match keys, row with
    | [], _ => .ok ""
    | _ :: _, none => .error "TypeError: cannot read properties of undefined"
    | _ :: _, some d =>
      .ok (joinSep ", " (keys.map (fun f =>
        "\"" ++ f ++ "\": \"" ++ fmtValue (jsGet d f) ++ "\"")))

/-! ## The description token functions (from `nodeToDesc`) -/

/-- The `name` token function. -/
def descName (node : ATNode) (spec : OlliVisSpec) (facetValue : Option String)
    (guide : Option Guide) : Except String (List String) :=
  match node.type with
  | .multiView =>
    let title := chartTitle spec facetValue
    .ok ["faceted chart " ++ title ++ ", " ++ toString node.children.length ++ " views",
         "a faceted chart " ++ (if title.length > 0 then "titled " ++ title else title) ++
           " with " ++ toString node.children.length ++ " views"]
  | .chart =>
    let title := chartTitle spec facetValue
    .ok [title, if title.length > 0 then "titled " ++ title else title]
  | .xAxis | .yAxis =>
    match guide with
    | none => .error "TypeError: axis is undefined"
    | some axis =>
      let s := (axis.axisType.getD "undefined") ++ "-axis " ++ guideTitle axis
      .ok [s, s]
  | .legend =>
    match guide with
    | none => .error "TypeError: legend is undefined"
    | some legend =>
      .ok ["legend " ++ guideTitle legend, "legend " ++ guideTitle legend]
  | .grid => .ok ["grid", "grid view of " ++ chartTypeStr spec]
  | _ => .error "Node type does not have the token name."

/-- The `index` token function. -/
def descIndex (node : ATNode) (idx len : Option ℕ) : Except String (List String) :=
  match node.type with
  | .chart | .filteredData => .ok [indexStr idx len, indexStr idx len]
  | _ => .error "Node type does not have the token index."

/-- The `type` token function. -/
def descType (node : ATNode) (spec : OlliVisSpec) (guide : Option Guide) :
    Except String (List String) :=
  match node.type with
  | .chart => .ok [chartTypeStr spec, chartTypeStr spec]
  | .xAxis | .yAxis =>
    match guide with
    | none => .error "TypeError: axis is undefined"
    | some axis => .ok [axisScaleType axis, "for a " ++ axisScaleType axis]
  | .legend =>
    match guide with
    | none => .error "TypeError: legend is undefined"
    | some legend => .ok [legendChannel legend, legendChannel legend]
  | .grid => .ok ["", ""]
  | _ => .error "Node type does not have the token type."

/-- The `children` token function (chart nodes only); reading
`chart.axes[0].title` throws when the chart has no axes. -/
def descChildren (node : ATNode) (spec : OlliVisSpec) : Except String (List String) :=
  match node.type with
  | .chart =>
    match spec with
    | .facetedChart _ => .error "TypeError: chart.axes is undefined"
    | .chart c =>
      match c.axes with
      | [] => .error "TypeError: cannot read properties of undefined"
      | a0 :: _ =>
        let first := jsOrElse a0.title a0.field
        let allAxes := c.axes.map (fun a => "\"" ++ jsOrElse a.title a.field ++ "\"")
        .ok (if c.axes.length = 1 then
          ["axis " ++ first, "with axis " ++ first]
        else
          ["axes " ++ joinSep ", " allAxes, "with axes " ++ joinSep " and " allAxes])
  | _ => .error "Node type does not have the token children."

/-- The `data` token function.  On axis/legend nodes it reads
`values[0]`, `values[1]` and `values[length-1]` eagerly (out-of-bounds
reads interpolate "undefined" without throwing). -/
def descData (node : ATNode) (parentType : Option NodeType) (guide : Option Guide) :
    Except String (List String) :=
  match node.type with
  | .xAxis | .yAxis | .legend =>
    match guide with
    | none => .error "TypeError: axis is undefined"
    | some axis =>
      let start := fmtValue (jsIndex axis.values 0)
      let next := fmtValue (jsIndex axis.values 1)
      let last := fmtValue (jsIndex axis.values (axis.values.length - 1))
      let total := pluralize axis.values.length "value"
      .ok (if axis.type = .discrete then
        (if axis.values.length = 2 then
          ["2 values: " ++ start ++ ", " ++ next,
           "with 2 values: \"" ++ start ++ "\" and \"" ++ next ++ "\""]
        else
          [total ++ " from " ++ start ++ " to " ++ last,
           "with " ++ total ++ " starting with \"" ++ start ++
             "\" and ending with \"" ++ last ++ "\""])
      else
        ["from " ++ start ++ " to " ++ last,
         "with values from \"" ++ start ++ "\" to \"" ++ last ++ "\""])
  | .grid => .ok ["", ""]
  | .filteredData =>
    if parentType = some .grid then
      .ok [filteredValuesGrid node.filterValue, filteredValuesGrid node.filterValue]
    else
      .ok [filteredValues node.filterValue, filteredValues node.filterValue]
  | .data =>
    match datumDesc node.selected.head? node with
    | .error e => .error e
    | .ok s => .ok [s, s]
  | _ => .error "Node type does not have the token data."

/-- The `size` token function. -/
def descSize (node : ATNode) : Except String (List String) :=
  match node.type with
  | .xAxis | .yAxis | .legend | .grid | .filteredData =>
    .ok [pluralize node.children.length "value", pluralize node.children.length "value"]
  | _ => .error "Node type does not have the token size."

/-- The `parent` token function. -/
def descParent (node : ATNode) (facetValue : Option String) :
    Except String (List String) :=
  match node.type with
  | .xAxis | .yAxis | .legend | .grid | .filteredData | .data =>
    let fvs := facetValueStr facetValue
    .ok [fvs, if fvs.length > 0 then "\"" ++ fvs ++ "\"" else fvs]
  | _ => .error "Node type does not have the token parent."

/-- The `aggregate` token function: for quantitative axes the mean,
maximum and minimum of the axis field over the node's selected rows. -/
def descAggregate (node : ATNode) (guide : Option Guide) :
    Except String (List String) :=
  match node.type with
  | .xAxis | .yAxis =>
    match guide with
    | none => .error "TypeError: axis is undefined"
    | some axis =>
      if axis.scaleType ≠ some "quantitative" then .ok ["", ""] else
        let avg := averageValue node axis
        match maximumValue node axis with
        | .error e => .error e
        | .ok mx =>
          match minimumValue node axis with
          | .error e => .error e
          | .ok mn =>
            .ok ["average " ++ avg ++ ", maximum " ++ mx ++ ", minimum " ++ mn,
                 "the average is " ++ avg ++ ", the maximum is " ++ mx ++
                   ", and the minimum is " ++ mn]
  | .legend | .grid => .ok ["", ""]
  | _ => .error "Node type does not have the token aggregate."

/-- The hierarchy levels of the tree. -/
inductive HierarchyLevel where
  | root | chartLevel | guideLevel | filteredDataLevel | dataLevel
deriving DecidableEq, Repr

/-- Modelled from the spec: `nodeTypeToHierarchyLevel` lives in
`Structure/Types`, which is not among the provided sources.  The spec
(§4.4, §6) fixes the hierarchy
`root < chart-level < axis/legend-level < filteredData-level < data-level`. -/
def nodeTypeToHierarchyLevel : NodeType → HierarchyLevel
  | .multiView => .root
  | .chart => .chartLevel
  | .xAxis | .yAxis | .legend | .grid => .guideLevel
  | .filteredData => .filteredDataLevel
  | .data => .dataLevel

/-- Modelled from the spec: `hierarchyLevelToTokens` lives in
`Structure/Types`, which is not among the provided sources.  The spec
(§4.4) fixes the token categories and which levels each applies to:
`name` (root, chart, guide levels), `index` (chart, filteredData),
`type` (chart, guide levels), `children` (chart), `data` (guide levels,
filteredData, data), `size` (guide levels, filteredData), `parent`
(guide levels, filteredData, data), `aggregate` (guide levels; only
quantitative axes render nonempty text). -/
def hierarchyLevelToTokens : HierarchyLevel → List TokenType
  | .root => [.name]
  | .chartLevel => [.name, .index, .type, .children]
  | .guideLevel => [.name, .type, .data, .size, .parent, .aggregate]
  | .filteredDataLevel => [.index, .data, .size, .parent]
  | .dataLevel => [.data, .parent]

/-- The source's string-keyed `tokenFunctions` dispatch table. -/
def tokenFunction (token : TokenType) (node : ATNode) (parentType : Option NodeType)
    (spec : OlliVisSpec) (facetValue : Option String) (guide : Option Guide)
    (idx len : Option ℕ) : Except String (List String) :=
  match token with
  | .name => descName node spec facetValue guide
  | .index => descIndex node idx len
  | .type => descType node spec guide
  | .children => descChildren node spec
  | .data => descData node parentType guide
  | .size => descSize node
  | .parent => descParent node facetValue
  | .aggregate => descAggregate node guide

/-- Monadic map over a list in `Except`: the first error aborts, as a
thrown exception does in the source's loops. -/
def exceptMap (f : α → Except String β) : List α → Except String (List β)
  | [] => .ok []
  | a :: as =>
    match f a with
    | .error e => .error e
    | .ok b =>
      match exceptMap f as with
      | .error e => .error e
      | .ok bs => .ok (b :: bs)

/-- `nodeToDesc` from the source: evaluates the token functions of the
node's hierarchy level in order; any failure is caught and rethrown as a
construction error. -/
def nodeToDesc (node : ATNode) (parentType : Option NodeType) (spec : OlliVisSpec)
    (facetValue : Option String) (guide : Option Guide) (idx len : Option ℕ) :
    Except String (List (TokenType × List String)) :=
  match exceptMap
      (fun token => (tokenFunction token node parentType spec facetValue guide
        idx len).map (fun v => (token, v)))
      (hierarchyLevelToTokens (nodeTypeToHierarchyLevel node.type)) with
  | .ok m => .ok m
  | .error _ => .error "Node type not handled in nodeToDesc"

/-! ## The tree builder (`olliVisSpecToNode` / `olliVisSpecToTree`)

The source is a single recursive function dispatching on the node type;
its recursion strictly descends the fixed hierarchy (multiView → chart →
axis/legend/grid → filteredData → data), so the model unrolls it into
one builder per hierarchy level, all sharing the source's parameter
list.  Description generation can throw, so every builder returns
`Except`. -/

/-- The `tableKeys` ordering of the `data` case: all fields, with the
guide field and then the facet field moved to the end. -/
def dataTableKeys (fieldsUsed : List String) (guide : Option Guide)
    (facetValue : Option String) : List String :=
  let keys1 :=
    match guide with
    | some g => (fieldsUsed.filter (fun f => f ≠ g.field)) ++ [g.field]
    | none => fieldsUsed
  if jsSomeStr facetValue then
    match fieldsUsed.head? with
    | some ff => (keys1.filter (fun f => f ≠ ff)) ++ [ff]
    | none => keys1  -- unreachable: fieldsUsed starts with the facet field whenever facetValue is set
  else keys1

/-- The final lines of every `olliVisSpecToNode` case: compute the
description of the assembled node (which can throw) and return it. -/
def finishNode (t : NodeType) (selected : List Datum)
    (filterValue : Option FilterValue) (gridIndex : Option (ℕ × ℕ))
    (children : List ATNode) (tableKeys : Option (List String))
    (parentType : Option NodeType) (spec : OlliVisSpec)
    (facetValue : Option String) (guide : Option Guide) (idx len : Option ℕ) :
    Except String ATNode :=
  match nodeToDesc (ATNode.mk t selected filterValue gridIndex [] children tableKeys)
      parentType spec facetValue guide idx len with
  | .error e => .error e
  | .ok desc => .ok (ATNode.mk t selected filterValue gridIndex desc children tableKeys)

/-- The `data` case of `olliVisSpecToNode`: a leaf. -/
def buildDataNode (selected : List Datum) (parentType : Option NodeType)
    (spec : OlliVisSpec) (fieldsUsed : List String) (facetValue : Option String)
    (filterValue : Option FilterValue) (guide : Option Guide)
    (idx len : Option ℕ) (gridIndex : Option (ℕ × ℕ)) : Except String ATNode :=
  finishNode .data selected filterValue gridIndex []
    (some (dataTableKeys fieldsUsed guide facetValue))
    parentType spec facetValue guide idx len

/-- The `filteredData` case of `olliVisSpecToNode`: one `data` child per
selected row, in row order. -/
def buildFilteredDataNode (selected : List Datum) (parentType : Option NodeType)
    (spec : OlliVisSpec) (fieldsUsed : List String) (facetValue : Option String)
    (filterValue : Option FilterValue) (guide : Option Guide)
    (idx len : Option ℕ) (gridIndex : Option (ℕ × ℕ)) : Except String ATNode :=
  match exceptMap
      (fun (e : ℕ × Datum) =>
        buildDataNode [e.2] (some .filteredData) spec fieldsUsed facetValue none
          guide (some e.1) (some selected.length) none)
      selected.enum with
  | .error e => .error e
  | .ok children =>
    finishNode .filteredData selected filterValue gridIndex children none
      parentType spec facetValue guide idx len

/-- The `xAxis`/`yAxis` case of `olliVisSpecToNode`: one `filteredData`
child per discrete value (string-compared equality) or per binned
interval (half-open range filter). -/
def buildAxisNode (t : NodeType) (selected : List Datum) (parentType : Option NodeType)
    (spec : OlliVisSpec) (fieldsUsed : List String) (facetValue : Option String)
    (filterValue : Option FilterValue) (guide : Option Guide)
    (idx len : Option ℕ) (gridIndex : Option (ℕ × ℕ)) : Except String ATNode :=
  match guide with
  | none => .error "TypeError: axis is undefined"
  | some axis =>
    match
      (match axis.type with
      | .discrete =>
        exceptMap
          (fun (e : ℕ × OlliValue) =>
            buildFilteredDataNode (filterEquals selected axis.field e.2)
              (some t) spec fieldsUsed facetValue
              (some (.str (OlliValue.jsToString e.2))) (some axis)
              (some e.1) (some axis.values.length) none)
          axis.values.enum
      | .continuous =>
        exceptMap
          (fun (e : ℕ × (OlliValue × OlliValue)) =>
            buildFilteredDataNode (filterInterval selected axis.field e.2.1 e.2.2)
              (some t) spec fieldsUsed facetValue
              (some (.interval e.2.1 e.2.2)) (some axis)
              (some e.1) (some (axisValuesToIntervals axis.values).length) none)
          (axisValuesToIntervals axis.values).enum) with
    | .error e => .error e
    | .ok children =>
      finishNode t selected filterValue gridIndex children none
        parentType spec facetValue guide idx len

/-- The `legend` case of `olliVisSpecToNode`: `discrete` legends get one
`filteredData` child per value; `continuous` legends are unsupported and
get no children (the case falls through without failing). -/
def buildLegendNode (selected : List Datum) (parentType : Option NodeType)
    (spec : OlliVisSpec) (fieldsUsed : List String) (facetValue : Option String)
    (filterValue : Option FilterValue) (guide : Option Guide)
    (idx len : Option ℕ) (gridIndex : Option (ℕ × ℕ)) : Except String ATNode :=
  match guide with
  | none => .error "TypeError: legend is undefined"
  | some legend =>
    match
      (match legend.type with
      | .discrete =>
        exceptMap
          (fun (e : ℕ × OlliValue) =>
            buildFilteredDataNode (filterEquals selected legend.field e.2)
              (some .legend) spec fieldsUsed facetValue
              (some (.str (OlliValue.jsToString e.2))) (some legend)
              (some e.1) (some legend.values.length) none)
          legend.values.enum
      | .continuous =>
        -- TODO currently unsupported (source comment): no children
        .ok ([] : List ATNode)) with
    | .error e => .error e
    | .ok children =>
      finishNode .legend selected filterValue gridIndex children none
        parentType spec facetValue guide idx len

/-- The `grid` case of `olliVisSpecToNode`: the cross product of the x
and y interval lists (x outer, y inner), one double-filtered
`filteredData` child per cell, carrying `{i, j}` grid coordinates. -/
def buildGridNode (selected : List Datum) (parentType : Option NodeType)
    (spec : OlliVisSpec) (fieldsUsed : List String) (facetValue : Option String)
    (filterValue : Option FilterValue) (guide : Option Guide)
    (idx len : Option ℕ) (gridIndex : Option (ℕ × ℕ)) : Except String ATNode :=
  match spec with
  | .facetedChart _ => .error "TypeError: chart.axes is undefined"
  | .chart c =>
    match c.axes.find? (fun a => a.axisType = some "x"),
        c.axes.find? (fun a => a.axisType = some "y") with
    | some xAxis, some yAxis =>
      match exceptMap
          (fun (e : ℕ × ((OlliValue × OlliValue) × (OlliValue × OlliValue))) =>
            buildFilteredDataNode
              (filterInterval
                (filterInterval selected xAxis.field e.2.1.1 e.2.1.2)
                yAxis.field e.2.2.1 e.2.2.2)
              (some .grid) spec fieldsUsed facetValue
              (some (.grid e.2.1 e.2.2)) none none none
              (some (e.1 / (axisValuesToIntervals yAxis.values).length,
                e.1 % (axisValuesToIntervals yAxis.values).length)))
          ((axisValuesToIntervals xAxis.values).flatMap
            (fun px => (axisValuesToIntervals yAxis.values).map
              (fun py => (px, py)))).enum with
      | .error e => .error e
      | .ok children =>
        finishNode .grid selected filterValue gridIndex children none
          parentType spec facetValue guide idx len
    | _, _ => .error "TypeError: cannot read properties of undefined"

/-- The axes a chart keeps: the source filters out continuous axes of
bar charts before building axis children. -/
def filteredAxesOf (c : Chart) : List Guide :=
  c.axes.filter (fun axis => !(c.mark = some "bar" ∧ axis.type = .continuous))

/-- The chart's trailing grid children: for a point mark with exactly
two (kept) continuous axes, one grid node; otherwise none. -/
def gridChildrenOf (selected : List Datum) (spec : OlliVisSpec)
    (fieldsUsed : List String) (facetValue : Option String) (c : Chart) :
    Except String (List ATNode) :=
  if c.mark = some "point" ∧ (filteredAxesOf c).length = 2 ∧
      (filteredAxesOf c).all (fun a => a.type = .continuous) then
    match buildGridNode selected (some .chart) spec fieldsUsed facetValue
        none none none none none with
    | .error e => .error e
    | .ok g => .ok [g]
  else
    .ok []

/-- The `chart` case of `olliVisSpecToNode`: drops continuous axes of
bar charts, then emits axis children, legend children, and — for a
point mark with exactly two continuous axes — a trailing grid child. -/
def buildChartNode (selected : List Datum) (parentType : Option NodeType)
    (spec : OlliVisSpec) (fieldsUsed : List String) (facetValue : Option String)
    (filterValue : Option FilterValue) (guide : Option Guide)
    (idx len : Option ℕ) (gridIndex : Option (ℕ × ℕ)) : Except String ATNode :=
  match spec with
  | .facetedChart _ => .error "TypeError: chart.axes is undefined"
  | .chart c =>
    match exceptMap
        (fun axis =>
          buildAxisNode (if axis.axisType = some "x" then .xAxis else .yAxis)
            selected (some .chart) spec fieldsUsed facetValue none (some axis)
            none none none)
        (filteredAxesOf c) with
    | .error e => .error e
    | .ok axisChildren =>
      match exceptMap
          (fun legend =>
            buildLegendNode selected (some .chart) spec fieldsUsed facetValue none
              (some legend) none none none)
          c.legends with
      | .error e => .error e
      | .ok legendChildren =>
        match gridChildrenOf selected spec fieldsUsed facetValue c with
        | .error e => .error e
        | .ok gridChildren =>
          finishNode .chart selected filterValue gridIndex
            (axisChildren ++ legendChildren ++ gridChildren) none
            parentType spec facetValue guide idx len

/-- The `multiView` case of `olliVisSpecToNode`: one chart child per
facet entry, in map order, each filtered to its facet value by
string-compared equality. -/
def buildMultiViewNode (selected : List Datum) (parentType : Option NodeType)
    (spec : OlliVisSpec) (fieldsUsed : List String) (facetValue : Option String)
    (filterValue : Option FilterValue) (guide : Option Guide)
    (idx len : Option ℕ) (gridIndex : Option (ℕ × ℕ)) : Except String ATNode :=
  match spec with
  | .chart _ => .error "TypeError: charts is undefined"
  | .facetedChart fc =>
    match exceptMap
        (fun (e : ℕ × (String × Chart)) =>
          buildChartNode (filterEquals selected fc.facetedField (.str e.2.1))
            (some .multiView) (.chart e.2.2) fieldsUsed (some e.2.1) none none
            (some e.1) (some fc.charts.length) none)
        fc.charts.enum with
    | .error e => .error e
    | .ok children =>
      finishNode .multiView selected filterValue gridIndex children none
        parentType spec facetValue guide idx len

/-- `olliVisSpecToNode` from the source, dispatching on the node type. -/
def olliVisSpecToNode (type : NodeType) (selected : List Datum)
    (parentType : Option NodeType) (spec : OlliVisSpec) (fieldsUsed : List String)
    (facetValue : Option String) (filterValue : Option FilterValue)
    (guide : Option Guide) (idx len : Option ℕ) (gridIndex : Option (ℕ × ℕ)) :
    Except String ATNode :=
  match type with
  | .multiView => buildMultiViewNode selected parentType spec fieldsUsed facetValue filterValue guide idx len gridIndex
  | .chart => buildChartNode selected parentType spec fieldsUsed facetValue filterValue guide idx len gridIndex
  | .xAxis => buildAxisNode .xAxis selected parentType spec fieldsUsed facetValue filterValue guide idx len gridIndex
  | .yAxis => buildAxisNode .yAxis selected parentType spec fieldsUsed facetValue filterValue guide idx len gridIndex
  | .legend => buildLegendNode selected parentType spec fieldsUsed facetValue filterValue guide idx len gridIndex
  | .grid => buildGridNode selected parentType spec fieldsUsed facetValue filterValue guide idx len gridIndex
  | .filteredData => buildFilteredDataNode selected parentType spec fieldsUsed facetValue filterValue guide idx len gridIndex
  | .data => buildDataNode selected parentType spec fieldsUsed facetValue filterValue guide idx len gridIndex

/-- First-occurrence deduplication (`[...new Set(...)]`). -/
def dedupAux : List String → List String → List String
  | [], _ => []
  | x :: xs, seen =>
    if x ∈ seen then dedupAux xs seen else x :: dedupAux xs (x :: seen)

def dedup (l : List String) : List String := dedupAux l []

/-- `getFieldsUsedForChart` for a single chart: the deduplicated fields
of all axes then legends (the source's reduce-with-concat is a map). -/
def getFieldsUsedForChartC (c : Chart) : List String :=
  dedup ((c.axes ++ c.legends).map Guide.field)

/-- `getFieldsUsedForChart` from the source: for a faceted chart, the
facet field first, then each sub-chart's fields. -/
def getFieldsUsedForChart : OlliVisSpec → List String
  | .chart c => getFieldsUsedForChartC c
  | .facetedChart fc =>
    dedup (fc.facetedField :: (fc.charts.map (fun p => getFieldsUsedForChartC p.2)).flatten)

/-- `olliVisSpecToTree` from the source.  The `default` branch of the
source's switch is unreachable for the two-variant union. -/
def olliVisSpecToTree (spec : OlliVisSpec) : Except String AccessibilityTree :=
  match spec with
  | .facetedChart _ =>
    match olliVisSpecToNode .multiView spec.specData none spec
        (getFieldsUsedForChart spec) none none none none none none with
    | .error e => .error e
    | .ok root => .ok ⟨root, getFieldsUsedForChart spec⟩
  | .chart _ =>
    match olliVisSpecToNode .chart spec.specData none spec
        (getFieldsUsedForChart spec) none none none none none none with
    | .error e => .error e
    | .ok root => .ok ⟨root, getFieldsUsedForChart spec⟩

/-! ## Tree traversal and the selected-concatenation invariant -/

mutual

/-- Every node of a tree, in preorder. -/
def allNodes : ATNode → List ATNode
  | .mk t sel fv gi d cs tk => .mk t sel fv gi d cs tk :: allNodesList cs

/-- Every node of a forest, in preorder. -/
def allNodesList : List ATNode → List ATNode
  | [] => []
  | c :: cs => allNodes c ++ allNodesList cs

end

/-- The claim's node invariant, read literally: a node with children has
`selected` equal to the concatenation, in child order, of its children's
`selected`; and a `data` node's `selected` holds exactly one row. -/
def claimC1nodeOk (n : ATNode) : Bool :=
  (n.children.isEmpty || decide (n.selected = (n.children.map ATNode.selected).flatten)) &&
  (decide (n.type ≠ NodeType.data) || decide (n.selected.length = 1))

/-- The claim's invariant over a whole tree. -/
def claimC1holds (root : ATNode) : Bool :=
  (allNodes root).all claimC1nodeOk

/-- The invariant that actually holds: the concatenation property at
`filteredData` nodes, and the one-row property at `data` nodes. -/
def selectedConcatOk (n : ATNode) : Prop :=
  (n.type = .filteredData → n.selected = (n.children.map ATNode.selected).flatten) ∧
  (n.type = .data → n.selected.length = 1)

/-! ## Example specs used as concrete instances -/

/-- A discrete x-axis over field `f` listing only the value "A". -/
def exAxisA : Guide :=
  { field := "f", type := .discrete, axisType := some "x", values := [.str "A"] }

/-- A line chart whose axis values do not cover the data: rows with
`f = "B"` appear under no axis child. -/
def exC1chart : Chart :=
  { mark := some "line", axes := [exAxisA], legends := [],
    data := [[("f", .str "A")], [("f", .str "B")]] }

def exC1spec : OlliVisSpec := .chart exC1chart

/-- A continuous x-axis whose tick values are non-numeric, non-date
strings (they parse to NaN). -/
def exC5axis : Guide :=
  { field := "f", type := .continuous, axisType := some "x",
    values := [.str "abc", .str "de,f"] }

/-- A line chart over the malformed tick array of `exC5axis`. -/
def exC5chart : Chart :=
  { mark := some "line", axes := [exC5axis], legends := [],
    data := [[("f", qn 1)], [("f", qn 2)]] }

def exC5spec : OlliVisSpec := .chart exC5chart

/-- A continuous numeric x-axis (ticks 10, 20) for the grid example. -/
def exC6x : Guide :=
  { field := "a", type := .continuous, axisType := some "x",
    scaleType := some "quantitative", values := [qn 10, qn 20] }

/-- A continuous numeric y-axis (ticks 5, 10) for the grid example. -/
def exC6y : Guide :=
  { field := "b", type := .continuous, axisType := some "y",
    scaleType := some "quantitative", values := [qn 5, qn 10] }

/-- A point chart with two continuous axes: the configuration that
receives a `grid` child. -/
def exC6chart : Chart :=
  { mark := some "point", axes := [exC6x, exC6y], legends := [],
    data := [[("a", qn 5), ("b", qn 7)], [("a", qn 15), ("b", qn 3)]] }

/-- A continuous (unsupported) color legend. -/
def exC7legend : Guide :=
  { field := "f", type := .continuous, channel := some "color",
    values := [qn 1, qn 2] }

/-- A quantitative x-axis, used with an empty selection for C9. -/
def exC9axis : Guide :=
  { field := "f", type := .continuous, axisType := some "x",
    scaleType := some "quantitative", values := [qn 10, qn 20] }

/-- A line chart with a quantitative axis and no data rows at all. -/
def exC9chart : Chart :=
  { mark := some "line", axes := [exC9axis], legends := [], data := [] }

def exC9spec : OlliVisSpec := .chart exC9chart

/-- C2, counterexample: on the sorted tick array `[0, 10, 20, 30]` the
binner does not return exactly `[[0,10],[10,20],[20,30]]` — the last tick
additionally synthesizes the bucket `[30,40]`. -/
theorem C2_counterexample :
    axisValuesToIntervals [qn 0, qn 10, qn 20, qn 30] ≠
      [(qn 0, qn 10), (qn 10, qn 20), (qn 20, qn 30)] := by decide

/-- C2, amended: on `[0, 10, 20, 30]` (first tick exactly zero) the binner
emits no bucket for the zero-valued first tick — so there is no
below-zero bucket — but it still synthesizes a bucket above the last
tick, returning exactly the four intervals
`[[0,10],[10,20],[20,30],[30,40]]`. -/
theorem C2_amended_zero_first_tick :
    axisValuesToIntervals [qn 0, qn 10, qn 20, qn 30] =
      [(qn 0, qn 10), (qn 10, qn 20), (qn 20, qn 30), (qn 30, qn 40)] := by decide

/-- C3: on `[10, 20, 30]` (first tick nonzero) the binner returns exactly
`[[0,10],[10,20],[20,30],[30,40]]`: a synthesized bucket below the first
tick of width `tick1 - tick0`, the interior buckets, and a synthesized
bucket above the last tick symmetric to the gap from the previous
tick. -/
theorem C3_nonzero_first_tick :
    axisValuesToIntervals [qn 10, qn 20, qn 30] =
      [(qn 0, qn 10), (qn 10, qn 20), (qn 20, qn 30), (qn 30, qn 40)] := by decide

/-- Numeric `>=` against `NaN` is always false. -/
theorem jsNumGe_nan_right (x : JSNum) : jsNumGe x .nan = false := by
  cases x <;> rfl

/-- JavaScript `>=` against a `NaN` bound is always false, whatever the
left value is. -/
theorem jsGe_num_nan_right (v : OlliValue) : jsGe v (.num .nan) = false := by
  cases v <;> simp [jsGe, OlliValue.toNumber, jsNumGe_nan_right]

/-- A `NaN` lower bound makes the interval filter reject every row,
whatever the row's field value is. -/
theorem filterInterval_nan_lower (sel : List Datum) (field : String)
    (hi : OlliValue) : filterInterval sel field (.num .nan) hi = [] := by
  apply List.filter_eq_nil_iff.mpr
  intro d _
  simp only [Bool.not_eq_true, Bool.and_eq_false_imp]
  intro hge
  exfalso
  revert hge
  cases jsGet d field <;>
    simp [jsGe_num_nan_right, OlliValue.jsToString, jsNumToString]

/-- C10: for a tick array holding a single nonzero numeric value `v`, the
binner returns the single interval `[NaN, v]` (the gap to the nonexistent
next tick is `NaN`), and a `NaN` lower bound makes the interval filter
select no rows at all — every row under such an axis is silently
dropped. -/
theorem C10_single_nonzero_tick (v : ℚ) (hv : v ≠ 0) :
    axisValuesToIntervals [qn v] = [(.num .nan, qn v)] ∧
    ∀ (sel : List Datum) (field : String),
      filterInterval sel field (.num .nan) (qn v) = [] := by
  constructor
  · simp [axisValuesToIntervals, ensureAxisValuesNumeric, jsReduceIdx,
      getEncodingValueIncrements, OlliValue.isString, OlliValue.isDate,
      jsSub, jsIndex, OlliValue.toNumber, jsNumSub, qn, hv]
  · intro sel field
    exact filterInterval_nan_lower sel field (qn v)

/-- C10, witness: the single tick `[10]` yields the interval `[NaN, 10]`
and a concrete one-row selection is filtered to nothing. -/
theorem C10_witness :
    axisValuesToIntervals [qn 10] = [(.num .nan, qn 10)] ∧
    filterInterval [[("f", qn 5)]] "f" (.num .nan) (qn 10) = [] :=
  ⟨(C10_single_nonzero_tick 10 (by norm_num)).1,
   (C10_single_nonzero_tick 10 (by norm_num)).2 [[("f", qn 5)]] "f"⟩

/-- The reduce callback only ever appends to its accumulator. -/
theorem getEncodingValueIncrements_eq_append (array : List OlliValue)
    (acc : List (OlliValue × OlliValue)) (cur : OlliValue) (idx : ℕ) :
    getEncodingValueIncrements array acc cur idx = acc ++ incContribution array cur idx := by
  unfold getEncodingValueIncrements incContribution
  split_ifs <;> simp

/-- The binner's reduce is the concatenation of the per-index
contributions. -/
theorem jsReduceIdx_inc (array : List OlliValue) (l : List OlliValue) :
    ∀ (acc : List (OlliValue × OlliValue)) (i : ℕ),
      jsReduceIdx (getEncodingValueIncrements array) l acc i =
        acc ++ incContribFrom array l i := by
  induction l with
  | nil => intro acc i; simp [jsReduceIdx, incContribFrom]
  | cons v vs ih =>
    intro acc i
    simp [jsReduceIdx, incContribFrom, getEncodingValueIncrements_eq_append, ih]

/-- `jsIndex` agrees with list indexing in bounds. -/
theorem jsIndex_eq_getElem (l : List OlliValue) (i : ℕ) (h : i < l.length) :
    jsIndex l i = l[i] := by
  simp [jsIndex, List.getD_eq_getElem?_getD, List.getElem?_eq_getElem h]

/-- The suffix contributions from a positive index: one bucket per
adjacent tick pair, then the synthesized last bucket. -/
theorem incContribFrom_drop (array : List OlliValue) :
    ∀ (l : List OlliValue) (i : ℕ), 1 ≤ i → array.drop i = l →
      i + l.length = array.length → l ≠ [] →
      incContribFrom array l i = (array.drop (i - 1)).zip l ++ [lastBucket array] := by
  intro l
  induction l with
  | nil => intro i _ _ _ hne; exact absurd rfl hne
  | cons x xs ih =>
    intro i h1 hdrop hlen _
    have hi_lt : i < array.length := by
      simp only [List.length_cons] at hlen; omega
    have hx : array[i] = x := by
      have := List.drop_eq_getElem_cons (l := array) (n := i) hi_lt
      rw [hdrop] at this
      exact (List.cons.injEq _ _ _ _ ▸ this).1.symm
    have hdrop1 : array.drop (i - 1) = array[i - 1] :: array.drop i := by
      have h1lt : i - 1 < array.length := by omega
      have := List.drop_eq_getElem_cons (l := array) (n := i - 1) h1lt
      rwa [Nat.sub_add_cancel h1] at this
    cases xs with
    | nil =>
      have hn : array.length = i + 1 := by
        simp only [List.length_cons, List.length_nil] at hlen; omega
      have hlast : i = array.length - 1 := by omega
      have hne0 : ¬ i = 0 := by omega
      have hstep : incContribFrom array [x] i =
          incContribution array x i ++ incContribFrom array [] (i + 1) := rfl
      rw [hstep]
      simp only [incContribFrom, incContribution, List.append_nil]
      rw [if_neg (by simp [hne0]), if_neg (by simp [hne0]), if_pos hlast]
      have hxlast : jsIndex array (array.length - 1) = x := by
        rw [show array.length - 1 = i by omega, jsIndex_eq_getElem array i hi_lt]
        exact hx
      have hn2 : array.length - 2 = i - 1 := by omega
      rw [hdrop1, hdrop]
      simp only [List.zip_cons_cons, List.zip_nil_right]
      simp only [lastBucket, hn2, hxlast]
      rw [jsIndex_eq_getElem array (i - 1) (by omega)]
      simp
    | cons y ys =>
      have hne0 : ¬ i = 0 := by omega
      have hnotlast : ¬ i = array.length - 1 := by
        simp only [List.length_cons] at hlen; omega
      have hdropSucc : array.drop (i + 1) = y :: ys := by
        have hdd : List.drop 1 (List.drop i array) = List.drop (i + 1) array := by
          rw [List.drop_drop]
        rw [← hdd, hdrop]; rfl
      have hrec := ih (i + 1) (by omega) hdropSucc
        (by simp only [List.length_cons] at hlen ⊢; omega) (by simp)
      rw [Nat.add_sub_cancel] at hrec
      have hstep : incContribFrom array (x :: y :: ys) i =
          incContribution array x i ++ incContribFrom array (y :: ys) (i + 1) := rfl
      have hcontrib : incContribution array x i = [(jsIndex array (i - 1), jsIndex array i)] := by
        simp only [incContribution]
        rw [if_neg (by simp [hne0]), if_neg (by simp [hne0]), if_neg hnotlast]
      rw [hstep, hrec, hcontrib, hdrop1, hdrop]
      simp only [List.zip_cons_cons, List.cons_append]
      rw [jsIndex_eq_getElem array (i - 1) (by omega), jsIndex_eq_getElem array i hi_lt, hx]
      simp

/-- The binner's reduce over the whole array, in closed form. -/
theorem jsReduceIdx_closedForm (array : List OlliValue) :
    jsReduceIdx (getEncodingValueIncrements array) array [] 0 =
      binnerClosedForm array := by
  cases array with
  | nil => rfl
  | cons h t =>
    rw [jsReduceIdx_inc]
    simp only [List.nil_append, incContribFrom, binnerClosedForm]
    cases t with
    | nil =>
      simp only [incContribFrom, List.append_nil, List.zip_nil_right]
      by_cases h0 : h = .num (.val 0)
      · simp [incContribution, h0]
      · simp only [incContribution, List.length_cons, List.length_nil]
        rw [if_neg (by simp [h0]), if_pos (by simp [h0])]
        rw [if_neg h0]
        simp
    | cons t0 ts =>
      have hcontrib : incContribFrom (h :: t0 :: ts) (t0 :: ts) 1 =
          ((h :: t0 :: ts).drop 0).zip (t0 :: ts) ++ [lastBucket (h :: t0 :: ts)] := by
        exact incContribFrom_drop (h :: t0 :: ts) (t0 :: ts) 1 (le_refl 1) rfl
          (by simp; omega) (by simp)
      rw [hcontrib]
      simp only [List.drop_zero]
      by_cases h0 : h = .num (.val 0)
      · simp only [incContribution]
        rw [if_pos (by simp [h0]), if_pos h0, if_neg (by simp)]
        simp
      · simp only [incContribution]
        rw [if_neg (by simp [h0]), if_pos (by simp [h0]), if_neg h0, if_neg (by simp)]
        simp

/-- `axisValuesToIntervals`, via the closed form of its reduce. -/
theorem axisValuesToIntervals_closedForm (values : List OlliValue) :
    axisValuesToIntervals values =
      (if (ensureAxisValuesNumeric values).2 then
        (binnerClosedForm (ensureAxisValuesNumeric values).1).map
          (fun p => (jsNewDate p.1, jsNewDate p.2))
      else binnerClosedForm (ensureAxisValuesNumeric values).1) := by
  simp only [axisValuesToIntervals, jsReduceIdx_closedForm]

/-- Appending a pair whose lower bound is the list's last element keeps
the adjacent-pairs zip of a list chained by shared boundaries. -/
theorem chain'_zip_last (z : OlliValue × OlliValue) :
    ∀ (l : List OlliValue) (hl : l ≠ []), z.1 = l.getLast hl →
      List.Chain' (fun p q : OlliValue × OlliValue => p.2 = q.1) (l.zip l.tail ++ [z]) := by
  intro l
  induction l with
  | nil => intro hl; exact absurd rfl hl
  | cons a l' ih =>
    intro _ hz
    cases l' with
    | nil => simp [List.chain'_singleton]
    | cons b l'' =>
      have hz' : z.1 = (b :: l'').getLast (by simp) := by
        rw [hz, List.getLast_cons (by simp)]
      simp only [List.zip_cons_cons, List.tail_cons, List.cons_append]
      refine List.chain'_cons'.mpr ⟨?_, ih (by simp) hz'⟩
      intro y hy
      cases l'' with
      | nil =>
        simp only [List.zip_nil_right, List.nil_append, List.head?_cons,
          Option.mem_def, Option.some.injEq] at hy
        subst hy
        rw [hz']
        rfl
      | cons c l''' =>
        simp only [List.zip_cons_cons, List.tail_cons, List.cons_append,
          List.head?_cons, Option.mem_def, Option.some.injEq] at hy
        subst hy
        rfl

/-- The binner's closed form is always chained: consecutive intervals
share a boundary. -/
theorem binnerClosedForm_chain (array : List OlliValue) :
    List.Chain' (fun p q : OlliValue × OlliValue => p.2 = q.1)
      (binnerClosedForm array) := by
  cases array with
  | nil => simp [binnerClosedForm]
  | cons h t =>
    cases t with
    | nil =>
      by_cases h0 : h = .num (.val 0) <;>
        simp [binnerClosedForm, h0, List.chain'_singleton]
    | cons t0 ts =>
      have hlastmem : (lastBucket (h :: t0 :: ts)).1 =
          (h :: t0 :: ts).getLast (by simp) := by
        simp only [lastBucket]
        rw [jsIndex_eq_getElem _ _ (by simp), List.getLast_eq_getElem]
      have hzl := chain'_zip_last (lastBucket (h :: t0 :: ts)) (h :: t0 :: ts)
        (by simp) hlastmem
      simp only [binnerClosedForm]
      by_cases h0 : h = .num (.val 0)
      · rw [if_pos h0]
        simpa using hzl
      · rw [if_neg h0]
        rw [List.append_assoc]
        refine List.chain'_append.mpr ⟨List.chain'_singleton _, by simpa using hzl, ?_⟩
        intro x hx y hy
        simp only [List.getLast?_singleton, Option.mem_def, Option.some.injEq] at hx
        subst hx
        simp only [List.tail_cons, List.zip_cons_cons, List.cons_append,
          List.head?_cons, Option.mem_def, Option.some.injEq] at hy
        subst hy
        rfl

/-- C4's first conjunct holds unconditionally: every interval list the
binner produces is chained — consecutive intervals share a boundary
(mapping numeric bounds back to dates preserves this). -/
theorem axisValuesToIntervals_chain (values : List OlliValue) :
    List.Chain' (fun p q : OlliValue × OlliValue => p.2 = q.1)
      (axisValuesToIntervals values) := by
  rw [axisValuesToIntervals_closedForm]
  split
  · refine List.chain'_map_of_chain' _ ?_ (binnerClosedForm_chain _)
    intro a b hab
    simp only at hab ⊢
    rw [hab]
  · exact binnerClosedForm_chain _

theorem qn_inj {a b : ℚ} (h : qn a = qn b) : a = b := by
  simpa [qn] using h

theorem jsSub_qn (a b : ℚ) : jsSub (qn a) (qn b) = qn (a - b) := rfl

theorem jsAdd_qn (a b : ℚ) : jsAdd (qn a) (qn b) = qn (a + b) := rfl

theorem jsGe_qn (v a : ℚ) : jsGe (qn v) (qn a) = decide (a ≤ v) := rfl

theorem jsLt_qn (v b : ℚ) : jsLt (qn v) (qn b) = decide (v < b) := rfl

/-- On an all-numeric tick array `ensureAxisValuesNumeric` passes the
values through unchanged, with the date flag unset. -/
theorem ensureAxisValuesNumeric_nums (ticks : List ℚ) (hne : ticks ≠ []) :
    ensureAxisValuesNumeric (ticks.map qn) = (ticks.map qn, false) := by
  cases ticks with
  | nil => exact absurd rfl hne
  | cons t ts =>
    simp [ensureAxisValuesNumeric, OlliValue.isString, OlliValue.isDate, qn]

/-- Adjacent pairs of a `≤`-chained list are ordered. -/
theorem chain'_le_of_mem_zip :
    ∀ (l : List ℚ), l.Chain' (· ≤ ·) → ∀ p ∈ l.zip l.tail, p.1 ≤ p.2 := by
  intro l
  induction l with
  | nil => intro _ p hp; simp at hp
  | cons a l' ih =>
    intro hchain p hp
    cases l' with
    | nil => simp at hp
    | cons b l'' =>
      simp only [List.tail_cons, List.zip_cons_cons, List.mem_cons] at hp
      rcases hp with rfl | hp
      · exact (List.chain'_cons.mp hchain).1
      · exact ih (List.chain'_cons.mp hchain).2 p
          (by simpa [List.tail_cons] using hp)

/-- For a chained list of widening rational intervals, the first lower
bound is at most the last upper bound. -/
theorem chained_lo_le_hi :
    ∀ (ivs : List (OlliValue × OlliValue)),
      List.Chain' (fun p q => p.2 = q.1) ivs →
      (∀ p ∈ ivs, ∃ a b : ℚ, p = (qn a, qn b) ∧ a ≤ b) →
      ∀ (lo hi : ℚ), ivs.head?.map Prod.fst = some (qn lo) →
        ivs.getLast?.map Prod.snd = some (qn hi) → lo ≤ hi := by
  intro ivs
  induction ivs with
  | nil => intro _ _ lo hi h; simp at h
  | cons p rest ih =>
    intro hchain hwide lo hi hlo hhi
    obtain ⟨a, b, hp, hab⟩ := hwide p (List.mem_cons_self p rest)
    have hloa : lo = a := by
      simp only [List.head?_cons, Option.map_some', Option.some.injEq, hp] at hlo
      exact qn_inj hlo.symm
    cases rest with
    | nil =>
      simp only [List.getLast?_singleton, Option.map_some', Option.some.injEq, hp] at hhi
      have hhib : hi = b := qn_inj hhi.symm
      rw [hloa, hhib]; exact hab
    | cons p' rest' =>
      obtain ⟨a', b', hp', _⟩ := hwide p' (by simp)
      have hbnd : p.2 = p'.1 := (List.chain'_cons.mp hchain).1
      have hba' : b = a' := by
        rw [hp, hp'] at hbnd
        exact qn_inj hbnd
      have hrec : a' ≤ hi := by
        refine ih (List.chain'_cons.mp hchain).2
          (fun r hr => hwide r (List.mem_cons_of_mem p hr)) a' hi ?_ ?_
        · simp [hp']
        · simpa [List.getLast?_cons_cons] using hhi
      calc lo = a := hloa
        _ ≤ b := hab
        _ = a' := hba'
        _ ≤ hi := hrec

/-- Membership in the union of a chained list of widening rational
intervals is membership in the half-open span from the first lower bound
to the last upper bound. -/
theorem chained_cover :
    ∀ (ivs : List (OlliValue × OlliValue)),
      List.Chain' (fun p q => p.2 = q.1) ivs →
      (∀ p ∈ ivs, ∃ a b : ℚ, p = (qn a, qn b) ∧ a ≤ b) →
      ∀ (lo hi : ℚ), ivs.head?.map Prod.fst = some (qn lo) →
        ivs.getLast?.map Prod.snd = some (qn hi) →
        ∀ v : ℚ,
          (∃ p ∈ ivs, ∃ a b : ℚ, p = (qn a, qn b) ∧ a ≤ v ∧ v < b) ↔
            (lo ≤ v ∧ v < hi) := by
  intro ivs
  induction ivs with
  | nil => intro _ _ lo hi h; simp at h
  | cons p rest ih =>
    intro hchain hwide lo hi hlo hhi v
    obtain ⟨a, b, hp, hab⟩ := hwide p (List.mem_cons_self p rest)
    have hloa : lo = a := by
      simp only [List.head?_cons, Option.map_some', Option.some.injEq, hp] at hlo
      exact qn_inj hlo.symm
    cases rest with
    | nil =>
      simp only [List.getLast?_singleton, Option.map_some', Option.some.injEq, hp] at hhi
      have hhib : hi = b := qn_inj hhi.symm
      constructor
      · rintro ⟨r, hr, a₀, b₀, hr', h1, h2⟩
        simp only [List.mem_singleton] at hr
        subst hr
        rw [hp] at hr'
        have ha₀ : a = a₀ := qn_inj (congrArg Prod.fst hr')
        have hb₀ : b = b₀ := qn_inj (congrArg Prod.snd hr')
        constructor
        · rw [hloa, ha₀]; exact h1
        · rw [hhib, hb₀]; exact h2
      · intro ⟨h1, h2⟩
        refine ⟨p, List.mem_singleton_self p, a, b, hp, ?_, ?_⟩
        · rw [← hloa]; exact h1
        · rw [← hhib]; exact h2
    | cons p' rest' =>
      obtain ⟨a', b', hp', hab'⟩ := hwide p' (by simp)
      have hbnd : p.2 = p'.1 := (List.chain'_cons.mp hchain).1
      have hba' : b = a' := by
        rw [hp, hp'] at hbnd
        exact qn_inj hbnd
      have hhirest : (p' :: rest').getLast?.map Prod.snd = some (qn hi) := by
        simpa [List.getLast?_cons_cons] using hhi
      have hrec := ih (List.chain'_cons.mp hchain).2
        (fun r hr => hwide r (List.mem_cons_of_mem p hr)) a' hi
        (by simp [hp']) hhirest v
      have ha'hi : a' ≤ hi :=
        chained_lo_le_hi (p' :: rest') (List.chain'_cons.mp hchain).2
          (fun r hr => hwide r (List.mem_cons_of_mem p hr)) a' hi
          (by simp [hp']) hhirest
      constructor
      · rintro ⟨r, hr, a₀, b₀, hr', h1, h2⟩
        rcases List.mem_cons.mp hr with rfl | hmem
        · rw [hp] at hr'
          have ha₀ : a = a₀ := qn_inj (congrArg Prod.fst hr')
          have hb₀ : b = b₀ := qn_inj (congrArg Prod.snd hr')
          refine ⟨by rw [hloa, ha₀]; exact h1, ?_⟩
          calc v < b₀ := h2
            _ = b := hb₀.symm
            _ = a' := hba'
            _ ≤ hi := ha'hi
        · have hres := hrec.mp ⟨r, hmem, a₀, b₀, hr', h1, h2⟩
          refine ⟨?_, hres.2⟩
          rw [hloa]
          calc a ≤ b := hab
            _ = a' := hba'
            _ ≤ v := hres.1
      · intro ⟨h1, h2⟩
        by_cases hvb : v < b
        · exact ⟨p, List.mem_cons_self p _, a, b, hp, by rw [← hloa]; exact h1, hvb⟩
        · push_neg at hvb
          obtain ⟨r, hr, hcov⟩ := hrec.mpr ⟨by rw [← hba']; exact hvb, h2⟩
          exact ⟨r, List.mem_cons_of_mem p hr, hcov⟩

/-- Membership characterization of the interval filter for a numeric
field value and numeric bounds. -/
theorem filterInterval_mem_qn (rows : List Datum) (field : String) (a b : ℚ)
    (d : Datum) (q : ℚ) (hq : jsGet d field = qn q) :
    d ∈ filterInterval rows field (qn a) (qn b) ↔ (d ∈ rows ∧ (a ≤ q ∧ q < b)) := by
  simp [filterInterval, List.mem_filter, hq, qn, jsGe, jsLt,
    OlliValue.toNumber, jsNumGe, jsNumLt]

/-- `jsIndex` on a mapped-in rational tick array. -/
theorem jsIndex_map_qn (ticks : List ℚ) (i : ℕ) (h : i < ticks.length) :
    jsIndex (ticks.map qn) i = qn (ticks.getD i 0) := by
  rw [jsIndex_eq_getElem _ _ (by simpa using h)]
  simp [List.getD_eq_getElem?_getD, List.getElem?_eq_getElem h]

/-- Adjacent `getD` entries of a `≤`-chained rational list are ordered. -/
theorem chain'_getD_le (l : List ℚ) (h : l.Chain' (· ≤ ·)) (i : ℕ)
    (hi : i + 1 < l.length) : l.getD i 0 ≤ l.getD (i + 1) 0 := by
  have hget := List.chain'_iff_get.mp h i (by omega)
  simp only [List.get_eq_getElem] at hget
  rw [List.getD_eq_getElem?_getD, List.getD_eq_getElem?_getD,
    List.getElem?_eq_getElem (by omega), List.getElem?_eq_getElem hi]
  simpa using hget

/-- C4, amended.  First conjunct (as claimed): every interval list the
binner produces is chained — consecutive intervals share a boundary.
Second conjunct (corrected coverage): for a sorted numeric tick array of
length at least two, the intervals cover precisely the half-open span
from the first interval's lower bound to the last interval's upper
bound, so a row with a numeric field value appears in some filteredData
child exactly when its value lies in that span — a numeric row outside
the span is dropped by binning. -/
theorem C4_amended :
    (∀ values : List OlliValue,
      List.Chain' (fun p q : OlliValue × OlliValue => p.2 = q.1)
        (axisValuesToIntervals values)) ∧
    (∀ ticks : List ℚ, ticks.Chain' (· ≤ ·) → 2 ≤ ticks.length →
      ∃ lo hi : ℚ,
        (axisValuesToIntervals (ticks.map qn)).head?.map Prod.fst = some (qn lo) ∧
        (axisValuesToIntervals (ticks.map qn)).getLast?.map Prod.snd = some (qn hi) ∧
        ∀ (rows : List Datum) (field : String) (d : Datum) (q : ℚ),
          d ∈ rows → jsGet d field = qn q →
          ((∃ p ∈ axisValuesToIntervals (ticks.map qn),
              d ∈ filterInterval rows field p.1 p.2) ↔ (lo ≤ q ∧ q < hi))) := by
  refine ⟨axisValuesToIntervals_chain, ?_⟩
  intro ticks hsorted hlen
  have hne : ticks ≠ [] := by
    intro h; rw [h] at hlen; simp at hlen
  have hAx : axisValuesToIntervals (ticks.map qn) = binnerClosedForm (ticks.map qn) := by
    rw [axisValuesToIntervals_closedForm, ensureAxisValuesNumeric_nums ticks hne]
    rfl
  obtain ⟨t0, ticks', hticks⟩ : ∃ t0 ticks', ticks = t0 :: ticks' := by
    cases ticks with
    | nil => exact absurd rfl hne
    | cons a l => exact ⟨a, l, rfl⟩
  obtain ⟨t1, ts, hticks'⟩ : ∃ t1 ts, ticks' = t1 :: ts := by
    cases ticks' with
    | nil => rw [hticks] at hlen; simp at hlen
    | cons a l => exact ⟨a, l, rfl⟩
  subst hticks'
  subst hticks
  have h01 : t0 ≤ t1 := (List.chain'_cons.mp hsorted).1
  -- the pieces of the closed form, in rational terms
  have harr : (t0 :: t1 :: ts).map qn = qn t0 :: qn t1 :: ts.map qn := by simp
  have hIdx1 : jsIndex ((t0 :: t1 :: ts).map qn) 1 = qn t1 := by
    rw [jsIndex_map_qn _ 1 (by simp)]; rfl
  set n := (t0 :: t1 :: ts).length with hn
  have hn2 : 2 ≤ n := by simp [hn]
  have htl_lt : n - 1 < n := by omega
  have htp_lt : n - 2 < n := by omega
  set tl := (t0 :: t1 :: ts).getD (n - 1) 0 with htl
  set tp := (t0 :: t1 :: ts).getD (n - 2) 0 with htp
  have htltp : tp ≤ tl := by
    have hstep := chain'_getD_le (t0 :: t1 :: ts) hsorted (n - 2) (by omega)
    rw [show n - 2 + 1 = n - 1 by omega] at hstep
    rw [htp, htl]
    exact hstep
  have hlastB : lastBucket ((t0 :: t1 :: ts).map qn) = (qn tl, qn (tl + (tl - tp))) := by
    simp only [lastBucket, List.length_map]
    rw [jsIndex_map_qn _ _ (by omega), jsIndex_map_qn _ _ (by omega)]
    rw [jsSub_qn, jsAdd_qn]
  have hform : binnerClosedForm ((t0 :: t1 :: ts).map qn) =
      (if t0 = 0 then [] else [(qn (t0 - (t1 - t0)), qn t0)]) ++
      ((t0 :: t1 :: ts).map qn).zip ((t1 :: ts).map qn) ++ [(qn tl, qn (tl + (tl - tp)))] := by
    rw [harr]
    simp only [binnerClosedForm]
    rw [if_neg (show ¬(qn t1 :: List.map qn ts = []) by simp)]
    rw [← harr, hIdx1, jsSub_qn, jsSub_qn, hlastB]
    by_cases h0 : t0 = 0
    · rw [if_pos (show qn t0 = OlliValue.num (JSNum.val 0) by simp [qn, h0]),
        if_pos h0]
      rfl
    · rw [if_neg (show ¬(qn t0 = OlliValue.num (JSNum.val 0)) by simp [qn, h0]),
        if_neg h0]
      rfl
  have hzipmap : ((t0 :: t1 :: ts).map qn).zip ((t1 :: ts).map qn) =
      ((t0 :: t1 :: ts).zip (t1 :: ts)).map (Prod.map qn qn) := by
    rw [List.zip_map]
  -- every interval is a widening rational pair
  have hwide : ∀ p ∈ binnerClosedForm ((t0 :: t1 :: ts).map qn),
      ∃ a b : ℚ, p = (qn a, qn b) ∧ a ≤ b := by
    intro p hp
    rw [hform] at hp
    rcases List.mem_append.mp hp with hp' | hp'
    · rcases List.mem_append.mp hp' with hbelow | hzip
      · by_cases h0 : t0 = 0
        · rw [if_pos h0] at hbelow; simp at hbelow
        · rw [if_neg h0] at hbelow
          simp only [List.mem_singleton] at hbelow
          exact ⟨t0 - (t1 - t0), t0, hbelow, by linarith⟩
      · rw [hzipmap] at hzip
        obtain ⟨⟨a, b⟩, hmem, hpq⟩ := List.mem_map.mp hzip
        refine ⟨a, b, hpq.symm, ?_⟩
        exact chain'_le_of_mem_zip (t0 :: t1 :: ts) hsorted (a, b)
          (by simpa using hmem)
    · simp only [List.mem_singleton] at hp'
      exact ⟨tl, tl + (tl - tp), hp', by linarith⟩
  -- head and last of the interval list
  have hchain := binnerClosedForm_chain ((t0 :: t1 :: ts).map qn)
  by_cases h0 : t0 = 0
  · refine ⟨t0, tl + (tl - tp), ?_, ?_, ?_⟩
    · rw [hAx, hform, if_pos h0]
      simp
    · rw [hAx, hform]
      rw [List.append_assoc, List.getLast?_append, List.getLast?_append]
      simp
    · intro rows field d q hd hq
      have hcov := chained_cover (binnerClosedForm ((t0 :: t1 :: ts).map qn))
        hchain hwide t0 (tl + (tl - tp))
        (by rw [hform, if_pos h0]; simp)
        (by rw [hform, List.append_assoc, List.getLast?_append,
          List.getLast?_append]; simp) q
      rw [hAx]
      rw [← hcov]
      constructor
      · rintro ⟨p, hp, hmem⟩
        obtain ⟨a, b, hpab, _⟩ := hwide p hp
        rw [hpab] at hmem
        have := (filterInterval_mem_qn rows field a b d q hq).mp hmem
        exact ⟨p, hp, a, b, hpab, this.2⟩
      · rintro ⟨p, hp, a, b, hpab, h1, h2⟩
        refine ⟨p, hp, ?_⟩
        rw [hpab]
        exact (filterInterval_mem_qn rows field a b d q hq).mpr ⟨hd, h1, h2⟩
  · refine ⟨t0 - (t1 - t0), tl + (tl - tp), ?_, ?_, ?_⟩
    · rw [hAx, hform, if_neg h0]
      simp
    · rw [hAx, hform]
      rw [List.append_assoc, List.getLast?_append, List.getLast?_append]
      simp
    · intro rows field d q hd hq
      have hcov := chained_cover (binnerClosedForm ((t0 :: t1 :: ts).map qn))
        hchain hwide (t0 - (t1 - t0)) (tl + (tl - tp))
        (by rw [hform, if_neg h0]; simp)
        (by rw [hform, List.append_assoc, List.getLast?_append,
          List.getLast?_append]; simp) q
      rw [hAx]
      rw [← hcov]
      constructor
      · rintro ⟨p, hp, hmem⟩
        obtain ⟨a, b, hpab, _⟩ := hwide p hp
        rw [hpab] at hmem
        have := (filterInterval_mem_qn rows field a b d q hq).mp hmem
        exact ⟨p, hp, a, b, hpab, this.2⟩
      · rintro ⟨p, hp, a, b, hpab, h1, h2⟩
        refine ⟨p, hp, ?_⟩
        rw [hpab]
        exact (filterInterval_mem_qn rows field a b d q hq).mpr ⟨hd, h1, h2⟩

/-- C4, counterexample to full coverage: with ticks `[0, 10]` the binner
produces `[[0,10],[10,20]]`, and a selected row whose field value is 100
falls in no interval — it appears in no filteredData child, so binning
does drop rows. -/
theorem C4_counterexample :
    ¬ ∃ p ∈ axisValuesToIntervals [qn 0, qn 10],
        [("f", qn 100)] ∈ filterInterval [[("f", qn 100)]] "f" p.1 p.2 := by
  decide

/-- C4, witness: with sorted ticks `[0, 10]` the amended theorem applies;
the span is `[0, 20)` and the row with value 5 lies in some child. -/
theorem C4_witness :
    List.Chain' (fun p q : OlliValue × OlliValue => p.2 = q.1)
      (axisValuesToIntervals [qn 0, qn 10]) ∧
    ∃ lo hi : ℚ,
      (axisValuesToIntervals ([(0 : ℚ), 10].map qn)).head?.map Prod.fst = some (qn lo) ∧
      (axisValuesToIntervals ([(0 : ℚ), 10].map qn)).getLast?.map Prod.snd = some (qn hi) ∧
      ∀ (rows : List Datum) (field : String) (d : Datum) (q : ℚ),
        d ∈ rows → jsGet d field = qn q →
        ((∃ p ∈ axisValuesToIntervals ([(0 : ℚ), 10].map qn),
            d ∈ filterInterval rows field p.1 p.2) ↔ (lo ≤ q ∧ q < hi)) :=
  ⟨C4_amended.1 [qn 0, qn 10],
   C4_amended.2 [0, 10] (by simp) (by simp)⟩

/-- Zipping a replicated list with its one-shorter replica replicates the
pair. -/
theorem zip_replicate_pred (x : OlliValue) :
    ∀ n : ℕ, (List.replicate n x).zip (List.replicate (n - 1) x) =
      List.replicate (n - 1) (x, x) := by
  intro n
  induction n with
  | zero => rfl
  | succ m ih =>
    cases m with
    | zero => rfl
    | succ k =>
      simp only [Nat.add_sub_cancel] at ih ⊢
      rw [List.replicate_succ x (k + 1), List.replicate_succ x k,
        List.zip_cons_cons, ← List.replicate_succ x k, ih,
        List.replicate_succ (x, x) k]

/-- C5, amended: an all-string tick array whose entries do not parse as
numbers does not fail the build; `ensureAxisValuesNumeric` silently maps
every entry to `NaN`, the binner returns `length + 1` degenerate
`[NaN, NaN]` intervals, and every interval filter then selects no rows:
a silently degraded tree, not a construction error. -/
theorem C5_amended (values : List OlliValue)
    (hstr : ∀ v ∈ values, ∃ s, v = OlliValue.str s ∧
      jsStringToNumber (stripCommas s) = JSNum.nan)
    (h2 : 2 ≤ values.length) :
    axisValuesToIntervals values =
      List.replicate (values.length + 1) (.num .nan, .num .nan) ∧
    ∀ (sel : List Datum) (field : String),
      filterInterval sel field (.num .nan) (.num .nan) = [] := by
  constructor
  · have hens : ensureAxisValuesNumeric values =
        (List.replicate values.length (.num .nan), false) := by
      have hall : values.all OlliValue.isString = true := by
        apply List.all_eq_true.mpr
        intro v hv
        obtain ⟨s, hs, _⟩ := hstr v hv
        simp [hs, OlliValue.isString]
      simp only [ensureAxisValuesNumeric, hall, if_pos]
      simp only [Prod.mk.injEq, and_true]
      apply List.eq_replicate_iff.mpr
      refine ⟨by simp, ?_⟩
      intro b hb
      obtain ⟨v, hv, hbv⟩ := List.mem_map.mp hb
      obtain ⟨s, hs, hparse⟩ := hstr v hv
      rw [← hbv, hs]
      simp only []
      rw [hparse]
    rw [axisValuesToIntervals_closedForm, hens]
    simp only [Bool.false_eq_true, if_false]
    obtain ⟨k, hk⟩ : ∃ k, values.length = k + 2 := by
      refine ⟨values.length - 2, by omega⟩
    rw [hk]
    have hrep : List.replicate (k + 2) (OlliValue.num JSNum.nan) =
        .num .nan :: List.replicate (k + 1) (.num .nan) := by
      rw [List.replicate_succ]
    rw [hrep]
    simp only [binnerClosedForm]
    rw [if_neg (by simp), if_neg (by simp)]
    have hzip : (OlliValue.num JSNum.nan :: List.replicate (k + 1) (OlliValue.num JSNum.nan)).zip
        (List.replicate (k + 1) (OlliValue.num JSNum.nan)) =
        List.replicate (k + 1) (OlliValue.num JSNum.nan, OlliValue.num JSNum.nan) := by
      have := zip_replicate_pred (OlliValue.num JSNum.nan) (k + 2)
      simpa [List.replicate_succ, Nat.add_sub_cancel] using this
    rw [hzip]
    have hsub : ∀ y : OlliValue, jsSub (OlliValue.num JSNum.nan) y = .num .nan := by
      intro y; simp [jsSub, OlliValue.toNumber, jsNumSub]
    have hlast : lastBucket (OlliValue.num JSNum.nan ::
        List.replicate (k + 1) (OlliValue.num JSNum.nan)) =
        (.num .nan, .num .nan) := by
      simp only [lastBucket]
      have hidx : ∀ i : ℕ, i < k + 2 → jsIndex (OlliValue.num JSNum.nan ::
          List.replicate (k + 1) (OlliValue.num JSNum.nan)) i = .num .nan := by
        intro i hi
        rw [show (OlliValue.num JSNum.nan :: List.replicate (k + 1) (OlliValue.num JSNum.nan)) =
          List.replicate (k + 2) (OlliValue.num JSNum.nan) from (List.replicate_succ _ _).symm]
        rw [jsIndex_eq_getElem _ _ (by simpa using hi)]
        simp
      simp only [List.length_cons, List.length_replicate]
      rw [hidx _ (by omega), hidx _ (by omega)]
      simp [jsSub, jsAdd, OlliValue.toNumber, jsNumSub, jsNumAdd]
    rw [hlast, hsub]
    rw [show (k + 2) + 1 = ((k + 1) + 1) + 1 by omega]
    rw [List.replicate_succ (((OlliValue.num JSNum.nan, OlliValue.num JSNum.nan)) : OlliValue × OlliValue) ((k + 1) + 1),
      List.replicate_succ' ((k + 1)) ((OlliValue.num JSNum.nan, OlliValue.num JSNum.nan) : OlliValue × OlliValue)]
    simp
  · intro sel field
    exact filterInterval_nan_lower sel field (.num .nan)

/-- C5, amended-claim witness: the two unparseable ticks `["abc","de,f"]`
produce three `[NaN, NaN]` intervals and the filters select nothing. -/
theorem C5_witness :
    axisValuesToIntervals [.str "abc", .str "de,f"] =
      List.replicate 3 (.num .nan, .num .nan) ∧
    filterInterval [[("f", qn 1)]] "f" (.num .nan) (.num .nan) = [] := by
  have hstr : ∀ v ∈ [OlliValue.str "abc", OlliValue.str "de,f"],
      ∃ s, v = OlliValue.str s ∧ jsStringToNumber (stripCommas s) = JSNum.nan := by
    intro v hv
    rcases List.mem_cons.mp hv with rfl | hv'
    · exact ⟨"abc", rfl, by decide⟩
    · rcases List.mem_singleton.mp hv' with rfl
      exact ⟨"de,f", rfl, by decide⟩
  exact ⟨(C5_amended [.str "abc", .str "de,f"] hstr (by decide)).1,
    (C5_amended [.str "abc", .str "de,f"] hstr (by decide)).2 [[("f", qn 1)]] "f"⟩

/-- C8: both row filters are pure, non-mutating and order-preserving
(they return sublists of the input).  Equality filtering keeps exactly
the rows whose field value string-equals the given value; range
filtering keeps exactly the rows with `lo ≤ value < hi` (half-open) for
numeric values, except that when the row's field value is a `Date` and
both bounds render as 4-character strings the comparison uses the date's
year only. -/
theorem C8_filters :
    (∀ (rows : List Datum) (field : String) (v : OlliValue),
      (filterEquals rows field v).Sublist rows) ∧
    (∀ (rows : List Datum) (field : String) (v : OlliValue) (d : Datum),
      d ∈ filterEquals rows field v ↔
        (d ∈ rows ∧ (jsGet d field).jsToString = v.jsToString)) ∧
    (∀ (rows : List Datum) (field : String) (lo hi : OlliValue),
      (filterInterval rows field lo hi).Sublist rows) ∧
    (∀ (rows : List Datum) (field : String) (a b : ℚ) (d : Datum) (q : ℚ),
      jsGet d field = qn q →
      (d ∈ filterInterval rows field (qn a) (qn b) ↔
        (d ∈ rows ∧ (a ≤ q ∧ q < b)))) ∧
    (∀ (rows : List Datum) (field : String) (a b : ℚ) (d : Datum) (t y : ℚ),
      jsGet d field = OlliValue.date (.val t) →
      (OlliValue.jsToString (qn a)).length = 4 →
      (OlliValue.jsToString (qn b)).length = 4 →
      jsGetFullYear (.val t) = .val y →
      (d ∈ filterInterval rows field (qn a) (qn b) ↔
        (d ∈ rows ∧ (a ≤ y ∧ y < b)))) := by
  refine ⟨?_, ?_, ?_, ?_, ?_⟩
  · intro rows field v
    exact List.filter_sublist rows
  · intro rows field v d
    simp [filterEquals, List.mem_filter]
  · intro rows field lo hi
    exact List.filter_sublist rows
  · intro rows field a b d q hq
    exact filterInterval_mem_qn rows field a b d q hq
  · intro rows field a b d t y hq h4a h4b hy
    simp only [filterInterval, List.mem_filter, hq]
    constructor
    · rintro ⟨hd, hp⟩
      refine ⟨hd, ?_⟩
      rw [if_pos ⟨h4a, h4b⟩, hy] at hp
      have := (Bool.and_eq_true _ _).mp hp
      constructor
      · have := this.1
        rw [show OlliValue.num (JSNum.val y) = qn y from rfl, jsGe_qn] at this
        exact of_decide_eq_true this
      · have := this.2
        rw [show OlliValue.num (JSNum.val y) = qn y from rfl, jsLt_qn] at this
        exact of_decide_eq_true this
    · rintro ⟨hd, hy1, hy2⟩
      refine ⟨hd, ?_⟩
      rw [if_pos ⟨h4a, h4b⟩, hy]
      rw [show OlliValue.num (JSNum.val y) = qn y from rfl]
      rw [Bool.and_eq_true, jsGe_qn, jsLt_qn]
      exact ⟨decide_eq_true hy1, decide_eq_true hy2⟩

/-- C8, witness: the equality filter returns a sublist; a numeric row
with value 5 is kept by the bound `[0, 10)`; a date row at epoch 0
(year 1970) against the 4-character bounds 1900 and 2000 is compared by
year. -/
theorem C8_witness :
    (filterEquals [[("f", OlliValue.str "A")], [("f", OlliValue.str "B")]] "f"
      (OlliValue.str "A")).Sublist [[("f", OlliValue.str "A")], [("f", OlliValue.str "B")]] ∧
    ([("f", qn 5)] ∈ filterInterval [[("f", qn 5)]] "f" (qn 0) (qn 10) ↔
      ([("f", qn 5)] ∈ [[("f", qn 5)]] ∧ ((0 : ℚ) ≤ 5 ∧ (5 : ℚ) < 10))) ∧
    ([("d", OlliValue.date (.val 0))] ∈
        filterInterval [[("d", OlliValue.date (.val 0))]] "d" (qn 1900) (qn 2000) ↔
      ([("d", OlliValue.date (.val 0))] ∈ [[("d", OlliValue.date (.val 0))]] ∧
        ((1900 : ℚ) ≤ 1970 ∧ (1970 : ℚ) < 2000))) :=
  ⟨C8_filters.1 [[("f", OlliValue.str "A")], [("f", OlliValue.str "B")]] "f"
      (OlliValue.str "A"),
   C8_filters.2.2.2.1 [[("f", qn 5)]] "f" 0 10 [("f", qn 5)] 5 (by decide),
   C8_filters.2.2.2.2 [[("d", OlliValue.date (.val 0))]] "d" 1900 2000
     [("d", OlliValue.date (.val 0))] 0 1970 (by decide) (by decide) (by decide)
     (by decide)⟩

/-! ## Inversion lemmas for the tree builders -/

theorem exceptMap_ok_forall {α β : Type} {f : α → Except String β} :
    ∀ {l : List α} {out : List β}, exceptMap f l = .ok out →
      ∀ b ∈ out, ∃ a ∈ l, f a = .ok b := by
  intro l
  induction l with
  | nil =>
    intro out h b hb
    simp only [exceptMap] at h
    cases h
    simp at hb
  | cons a as ih =>
    intro out h b hb
    simp only [exceptMap] at h
    cases hfa : f a with
    | error e => rw [hfa] at h; simp at h
    | ok b0 =>
      rw [hfa] at h
      cases hrest : exceptMap f as with
      | error e => rw [hrest] at h; simp at h
      | ok bs =>
        rw [hrest] at h
        simp only [Except.ok.injEq] at h
        subst h
        rcases List.mem_cons.mp hb with rfl | hmem
        · exact ⟨a, List.mem_cons_self a as, hfa⟩
        · obtain ⟨a', ha', hfa'⟩ := ih hrest b hmem
          exact ⟨a', List.mem_cons_of_mem a ha', hfa'⟩

theorem exceptMap_ok_length {α β : Type} {f : α → Except String β} :
    ∀ {l : List α} {out : List β}, exceptMap f l = .ok out →
      out.length = l.length := by
  intro l
  induction l with
  | nil =>
    intro out h
    simp only [exceptMap] at h
    cases h
    rfl
  | cons a as ih =>
    intro out h
    simp only [exceptMap] at h
    cases hfa : f a with
    | error e => rw [hfa] at h; simp at h
    | ok b0 =>
      rw [hfa] at h
      cases hrest : exceptMap f as with
      | error e => rw [hrest] at h; simp at h
      | ok bs =>
        rw [hrest] at h
        simp only [Except.ok.injEq] at h
        subst h
        simp [ih hrest]

theorem exceptMap_ok_getElem {α β : Type} {f : α → Except String β} :
    ∀ {l : List α} {out : List β}, exceptMap f l = .ok out →
      ∀ (k : ℕ) (hk : k < l.length) (hk' : k < out.length),
        f l[k] = .ok out[k] := by
  intro l
  induction l with
  | nil => intro out h k hk; simp at hk
  | cons a as ih =>
    intro out h k hk hk'
    simp only [exceptMap] at h
    cases hfa : f a with
    | error e => rw [hfa] at h; simp at h
    | ok b0 =>
      rw [hfa] at h
      cases hrest : exceptMap f as with
      | error e => rw [hrest] at h; simp at h
      | ok bs =>
        rw [hrest] at h
        simp only [Except.ok.injEq] at h
        subst h
        cases k with
        | zero => simpa using hfa
        | succ k' =>
          simp only [List.getElem_cons_succ]
          exact ih hrest k' (by simpa using hk) (by simpa using hk')

/-- Pointwise images of a successful `exceptMap`. -/
theorem exceptMap_ok_map_eq {α β γ : Type} {f : α → Except String β}
    {g : β → γ} {h : α → γ} (hfg : ∀ a b, f a = .ok b → g b = h a) :
    ∀ {l : List α} {out : List β}, exceptMap f l = .ok out →
      out.map g = l.map h := by
  intro l
  induction l with
  | nil =>
    intro out hmap
    simp only [exceptMap] at hmap
    cases hmap
    rfl
  | cons a as ih =>
    intro out hmap
    simp only [exceptMap] at hmap
    cases hfa : f a with
    | error e => rw [hfa] at hmap; simp at hmap
    | ok b0 =>
      rw [hfa] at hmap
      cases hrest : exceptMap f as with
      | error e => rw [hrest] at hmap; simp at hmap
      | ok bs =>
        rw [hrest] at hmap
        simp only [Except.ok.injEq] at hmap
        subst hmap
        simp [hfg a b0 hfa, ih hrest]

/-- Membership in a forest's preorder traversal. -/
theorem mem_allNodesList {m : ATNode} :
    ∀ {cs : List ATNode}, m ∈ allNodesList cs ↔ ∃ c ∈ cs, m ∈ allNodes c := by
  intro cs
  induction cs with
  | nil => simp [allNodesList]
  | cons c cs' ih =>
    simp only [allNodesList, List.mem_append, ih, List.mem_cons]
    constructor
    · rintro (hm | ⟨c', hc', hm⟩)
      · exact ⟨c, Or.inl rfl, hm⟩
      · exact ⟨c', Or.inr hc', hm⟩
    · rintro ⟨c', rfl | hc', hm⟩
      · exact Or.inl hm
      · exact Or.inr ⟨c', hc', hm⟩

/-- Inverts a match on an intermediate `Except` result. -/
theorem match_except_ok {α : Type} {x : Except String α}
    {k : α → Except String ATNode} {node : ATNode}
    (h : (match x with | .error e => .error e | .ok v => k v) = Except.ok node) :
    ∃ v, x = .ok v ∧ k v = .ok node := by
  cases x with
  | error e => simp at h
  | ok v => exact ⟨v, rfl, h⟩

/-- A successfully finished node has exactly the assembled structure. -/
theorem finishNode_ok {t : NodeType} {sel : List Datum}
    {fil : Option FilterValue} {gi : Option (ℕ × ℕ)} {cs : List ATNode}
    {tk : Option (List String)} {pt : Option NodeType} {spec : OlliVisSpec}
    {fv : Option String} {g : Option Guide} {i l : Option ℕ} {node : ATNode}
    (h : finishNode t sel fil gi cs tk pt spec fv g i l = .ok node) :
    ∃ desc, node = ATNode.mk t sel fil gi desc cs tk := by
  unfold finishNode at h
  split at h
  · exact absurd h (by simp)
  · simp only [Except.ok.injEq] at h
    exact ⟨_, h.symm⟩

theorem buildDataNode_ok {sel : List Datum} {pt : Option NodeType}
    {spec : OlliVisSpec} {fu : List String} {fv : Option String}
    {fil : Option FilterValue} {g : Option Guide} {i l : Option ℕ}
    {gi : Option (ℕ × ℕ)} {node : ATNode}
    (h : buildDataNode sel pt spec fu fv fil g i l gi = .ok node) :
    node.type = .data ∧ node.selected = sel ∧ node.children = [] := by
  obtain ⟨desc, rfl⟩ := finishNode_ok h
  exact ⟨rfl, rfl, rfl⟩

theorem buildFilteredDataNode_ok {sel : List Datum} {pt : Option NodeType}
    {spec : OlliVisSpec} {fu : List String} {fv : Option String}
    {fil : Option FilterValue} {g : Option Guide} {i l : Option ℕ}
    {gi : Option (ℕ × ℕ)} {node : ATNode}
    (h : buildFilteredDataNode sel pt spec fu fv fil g i l gi = .ok node) :
    ∃ children desc,
      node = ATNode.mk .filteredData sel fil gi desc children none ∧
      exceptMap (fun (e : ℕ × Datum) =>
        buildDataNode [e.2] (some .filteredData) spec fu fv none g (some e.1)
          (some sel.length) none) sel.enum = .ok children := by
  unfold buildFilteredDataNode at h
  split at h
  · exact absurd h (by simp)
  · rename_i children heq
    obtain ⟨desc, rfl⟩ := finishNode_ok h
    exact ⟨children, desc, rfl, heq⟩

/-! ## The amended selected-concatenation invariant (C1) -/

theorem enumFrom_flatMap_snd {α : Type} (n : ℕ) (l : List α) :
    (List.enumFrom n l).flatMap (fun e => [e.2]) = l := by
  induction l generalizing n with
  | nil => rfl
  | cons a t ih => simpa [List.enumFrom] using ih (n + 1)

theorem allNodes_data {sel : List Datum} {pt : Option NodeType}
    {spec : OlliVisSpec} {fu : List String} {fv : Option String}
    {fil : Option FilterValue} {g : Option Guide} {i l : Option ℕ}
    {gi : Option (ℕ × ℕ)} {node : ATNode}
    (h : buildDataNode sel pt spec fu fv fil g i l gi = .ok node)
    (hsel : sel.length = 1) :
    ∀ m ∈ allNodes node, selectedConcatOk m := by
  obtain ⟨desc, rfl⟩ := finishNode_ok h
  intro m hm
  simp only [allNodes, allNodesList] at hm
  rcases List.mem_singleton.mp hm with rfl
  constructor
  · intro habs; cases habs
  · intro _; exact hsel

theorem allNodes_filteredData {sel : List Datum} {pt : Option NodeType}
    {spec : OlliVisSpec} {fu : List String} {fv : Option String}
    {fil : Option FilterValue} {g : Option Guide} {i l : Option ℕ}
    {gi : Option (ℕ × ℕ)} {node : ATNode}
    (h : buildFilteredDataNode sel pt spec fu fv fil g i l gi = .ok node) :
    ∀ m ∈ allNodes node, selectedConcatOk m := by
  obtain ⟨children, desc, rfl, hmap⟩ := buildFilteredDataNode_ok h
  intro m hm
  simp only [allNodes] at hm
  rcases List.mem_cons.mp hm with rfl | hm'
  · constructor
    · intro _
      show sel = (children.map ATNode.selected).flatten
      have hsel : children.map ATNode.selected = sel.enum.map (fun e => [e.2]) :=
        exceptMap_ok_map_eq (fun a b hb => (buildDataNode_ok hb).2.1) hmap
      rw [hsel, ← List.flatMap_def, List.enum_eq_enumFrom, enumFrom_flatMap_snd]
    · intro habs; cases habs
  · rw [mem_allNodesList] at hm'
    obtain ⟨c, hc, hmc⟩ := hm'
    obtain ⟨e, _, hce⟩ := exceptMap_ok_forall hmap c hc
    exact allNodes_data hce (by simp) m hmc

theorem allNodes_axis {t : NodeType} {sel : List Datum} {pt : Option NodeType}
    {spec : OlliVisSpec} {fu : List String} {fv : Option String}
    {fil : Option FilterValue} {g : Option Guide} {i l : Option ℕ}
    {gi : Option (ℕ × ℕ)} {node : ATNode}
    (ht : t ≠ .filteredData ∧ t ≠ .data)
    (h : buildAxisNode t sel pt spec fu fv fil g i l gi = .ok node) :
    ∀ m ∈ allNodes node, selectedConcatOk m := by
  cases g with
  | none => unfold buildAxisNode at h; exact absurd h (by simp)
  | some axis =>
    unfold buildAxisNode at h
    split at h
    · exact absurd h (by simp)
    · split at h
      · exact absurd h (by simp)
      · rename_i children heq
        obtain ⟨desc, rfl⟩ := finishNode_ok h
        intro m hm
        simp only [allNodes] at hm
        rcases List.mem_cons.mp hm with rfl | hm'
        · exact ⟨fun habs => absurd habs ht.1, fun habs => absurd habs ht.2⟩
        · rw [mem_allNodesList] at hm'
          obtain ⟨c, hc, hmc⟩ := hm'
          split at heq
          · obtain ⟨e, _, hce⟩ := exceptMap_ok_forall heq c hc
            exact allNodes_filteredData hce m hmc
          · obtain ⟨e, _, hce⟩ := exceptMap_ok_forall heq c hc
            exact allNodes_filteredData hce m hmc

theorem allNodes_legend {sel : List Datum} {pt : Option NodeType}
    {spec : OlliVisSpec} {fu : List String} {fv : Option String}
    {fil : Option FilterValue} {g : Option Guide} {i l : Option ℕ}
    {gi : Option (ℕ × ℕ)} {node : ATNode}
    (h : buildLegendNode sel pt spec fu fv fil g i l gi = .ok node) :
    ∀ m ∈ allNodes node, selectedConcatOk m := by
  cases g with
  | none => unfold buildLegendNode at h; exact absurd h (by simp)
  | some legend =>
    unfold buildLegendNode at h
    split at h
    · exact absurd h (by simp)
    · split at h
      · exact absurd h (by simp)
      · rename_i children heq
        obtain ⟨desc, rfl⟩ := finishNode_ok h
        intro m hm
        simp only [allNodes] at hm
        rcases List.mem_cons.mp hm with rfl | hm'
        · exact ⟨fun habs => (nomatch habs), fun habs => (nomatch habs)⟩
        · rw [mem_allNodesList] at hm'
          obtain ⟨c, hc, hmc⟩ := hm'
          split at heq
          · obtain ⟨e, _, hce⟩ := exceptMap_ok_forall heq c hc
            exact allNodes_filteredData hce m hmc
          · simp only [Except.ok.injEq] at heq
            subst heq
            simp at hc

theorem allNodes_grid {sel : List Datum} {pt : Option NodeType}
    {spec : OlliVisSpec} {fu : List String} {fv : Option String}
    {fil : Option FilterValue} {g : Option Guide} {i l : Option ℕ}
    {gi : Option (ℕ × ℕ)} {node : ATNode}
    (h : buildGridNode sel pt spec fu fv fil g i l gi = .ok node) :
    ∀ m ∈ allNodes node, selectedConcatOk m := by
  unfold buildGridNode at h
  split at h
  · exact absurd h (by simp)
  · split at h
    · rename_i xAxis yAxis
      split at h
      · exact absurd h (by simp)
      · rename_i children heq
        obtain ⟨desc, rfl⟩ := finishNode_ok h
        intro m hm
        simp only [allNodes] at hm
        rcases List.mem_cons.mp hm with rfl | hm'
        · exact ⟨fun habs => (nomatch habs), fun habs => (nomatch habs)⟩
        · rw [mem_allNodesList] at hm'
          obtain ⟨c, hc, hmc⟩ := hm'
          obtain ⟨e, _, hce⟩ := exceptMap_ok_forall heq c hc
          exact allNodes_filteredData hce m hmc
    · exact absurd h (by simp)

theorem gridChildrenOf_ok {sel : List Datum} {spec : OlliVisSpec}
    {fu : List String} {fv : Option String} {c : Chart} {gcs : List ATNode}
    (h : gridChildrenOf sel spec fu fv c = .ok gcs) :
    gcs = [] ∨ ∃ gnode, gcs = [gnode] ∧
      buildGridNode sel (some .chart) spec fu fv none none none none none =
        .ok gnode := by
  unfold gridChildrenOf at h
  split at h
  · split at h
    · exact absurd h (by simp)
    · rename_i gnode heq
      simp only [Except.ok.injEq] at h
      exact Or.inr ⟨gnode, h.symm, heq⟩
  · simp only [Except.ok.injEq] at h
    exact Or.inl h.symm

theorem allNodes_chart {sel : List Datum} {pt : Option NodeType}
    {spec : OlliVisSpec} {fu : List String} {fv : Option String}
    {fil : Option FilterValue} {g : Option Guide} {i l : Option ℕ}
    {gi : Option (ℕ × ℕ)} {node : ATNode}
    (h : buildChartNode sel pt spec fu fv fil g i l gi = .ok node) :
    ∀ m ∈ allNodes node, selectedConcatOk m := by
  unfold buildChartNode at h
  split at h
  · exact absurd h (by simp)
  · rename_i c
    split at h
    · exact absurd h (by simp)
    · rename_i axisChildren heqAxes
      split at h
      · exact absurd h (by simp)
      · rename_i legendChildren heqLegends
        split at h
        · exact absurd h (by simp)
        · rename_i gridChildren heqGrid
          obtain ⟨desc, rfl⟩ := finishNode_ok h
          intro m hm
          simp only [allNodes] at hm
          rcases List.mem_cons.mp hm with rfl | hm'
          · exact ⟨fun habs => (nomatch habs), fun habs => (nomatch habs)⟩
          · rw [mem_allNodesList] at hm'
            obtain ⟨ch, hch, hmc⟩ := hm'
            rcases List.mem_append.mp hch with hch' | hgrid
            · rcases List.mem_append.mp hch' with haxis | hlegend
              · obtain ⟨a, _, hca⟩ := exceptMap_ok_forall heqAxes ch haxis
                exact allNodes_axis
                  ⟨by split <;> simp, by split <;> simp⟩ hca m hmc
              · obtain ⟨lg, _, hcl⟩ := exceptMap_ok_forall heqLegends ch hlegend
                exact allNodes_legend hcl m hmc
            · rcases gridChildrenOf_ok heqGrid with rfl | ⟨gnode, rfl, hg⟩
              · simp at hgrid
              · rcases List.mem_singleton.mp hgrid with rfl
                exact allNodes_grid hg m hmc

theorem allNodes_multiView {sel : List Datum} {pt : Option NodeType}
    {spec : OlliVisSpec} {fu : List String} {fv : Option String}
    {fil : Option FilterValue} {g : Option Guide} {i l : Option ℕ}
    {gi : Option (ℕ × ℕ)} {node : ATNode}
    (h : buildMultiViewNode sel pt spec fu fv fil g i l gi = .ok node) :
    ∀ m ∈ allNodes node, selectedConcatOk m := by
  unfold buildMultiViewNode at h
  split at h
  · exact absurd h (by simp)
  · rename_i fc
    split at h
    · exact absurd h (by simp)
    · rename_i children heq
      obtain ⟨desc, rfl⟩ := finishNode_ok h
      intro m hm
      simp only [allNodes] at hm
      rcases List.mem_cons.mp hm with rfl | hm'
      · exact ⟨fun habs => (nomatch habs), fun habs => (nomatch habs)⟩
      · rw [mem_allNodesList] at hm'
        obtain ⟨ch, hch, hmc⟩ := hm'
        obtain ⟨e, _, hce⟩ := exceptMap_ok_forall heq ch hch
        exact allNodes_chart hce m hmc

/-- C1, amended: in every tree `olliVisSpecToTree` builds, every
`filteredData` node's `selected` equals the order-preserving
concatenation, in child order, of its children's `selected`, and every
`data` node's `selected` contains exactly one row.  (The concatenation
property does not hold at the other node kinds — see the
counterexample.) -/
theorem C1_amended (spec : OlliVisSpec) (tree : AccessibilityTree)
    (h : olliVisSpecToTree spec = .ok tree) :
    ∀ m ∈ allNodes tree.root,
      (m.type = .filteredData →
        m.selected = (m.children.map ATNode.selected).flatten) ∧
      (m.type = .data → m.selected.length = 1) := by
  intro m hm
  unfold olliVisSpecToTree at h
  have : selectedConcatOk m := by
    split at h
    · split at h
      · exact absurd h (by simp)
      · rename_i root heq
        simp only [Except.ok.injEq] at h
        subst h
        simp only [olliVisSpecToNode] at heq
        exact allNodes_multiView heq m hm
    · split at h
      · exact absurd h (by simp)
      · rename_i root heq
        simp only [Except.ok.injEq] at h
        subst h
        simp only [olliVisSpecToNode] at heq
        exact allNodes_chart heq m hm
  exact this

/-- C1, counterexample: the literal claim — every node with children has
`selected` equal to the concatenation of its children's `selected` —
fails on a concrete chart: the discrete axis only lists the value "A",
so the axis node keeps both rows in `selected` while its children
together hold only the `f = "A"` row. -/
theorem C1_counterexample :
    (olliVisSpecToTree exC1spec).toOption.map (fun t => claimC1holds t.root) =
      some false := by
  decide

/-- C1, amended-claim witness: the concrete chart builds successfully and
every node of its tree satisfies the amended invariant. -/
theorem C1_witness :
    ∃ tree, olliVisSpecToTree exC1spec = .ok tree ∧
      ∀ m ∈ allNodes tree.root,
        (m.type = .filteredData →
          m.selected = (m.children.map ATNode.selected).flatten) ∧
        (m.type = .data → m.selected.length = 1) := by
  have hok : (olliVisSpecToTree exC1spec).toOption.isSome = true := by decide
  cases htree : olliVisSpecToTree exC1spec with
  | error e => rw [htree] at hok; exact absurd hok (by simp [Except.toOption])
  | ok tree => exact ⟨tree, rfl, C1_amended exC1spec tree htree⟩

/-! ## Cross-product, nested-filter and legend/axis lemmas (C5–C9) -/

theorem enumFrom_map_snd_comp {α β : Type} (g : α → β) (n : ℕ) (l : List α) :
    (List.enumFrom n l).map (fun e => g e.2) = l.map g := by
  induction l generalizing n with
  | nil => rfl
  | cons a t ih => simpa [List.enumFrom] using ih (n + 1)

theorem buildFilteredDataNode_ok_sel {sel : List Datum} {pt : Option NodeType}
    {spec : OlliVisSpec} {fu : List String} {fv : Option String}
    {fil : Option FilterValue} {g : Option Guide} {i l : Option ℕ}
    {gi : Option (ℕ × ℕ)} {node : ATNode}
    (h : buildFilteredDataNode sel pt spec fu fv fil g i l gi = .ok node) :
    node.selected = sel ∧ node.filterValue = fil ∧ node.type = .filteredData ∧
      node.gridIndex = gi := by
  obtain ⟨children, desc, rfl, _⟩ := buildFilteredDataNode_ok h
  exact ⟨rfl, rfl, rfl, rfl⟩

theorem flatMap_cross_length {α β : Type} (xs : List α) (ys : List β) :
    (xs.flatMap (fun x => ys.map (fun y => (x, y)))).length =
      xs.length * ys.length := by
  induction xs with
  | nil => simp
  | cons x xs ih => simp [List.flatMap_cons, ih, Nat.succ_mul, Nat.add_comm]

theorem flatMap_cross_getElem? {α β : Type} (xs : List α) (ys : List β) :
    ∀ (k : ℕ), k < xs.length * ys.length →
      ∃ x y, xs[k / ys.length]? = some x ∧ ys[k % ys.length]? = some y ∧
        (xs.flatMap (fun x => ys.map (fun y => (x, y))))[k]? = some (x, y) := by
  induction xs with
  | nil => intro k hk; simp at hk
  | cons x xs ih =>
    intro k hk
    rcases Nat.eq_zero_or_pos ys.length with h0 | hpos
    · rw [h0, Nat.mul_zero] at hk; exact absurd hk (by omega)
    · by_cases hky : k < ys.length
      · refine ⟨x, ys[k], ?_, ?_, ?_⟩
        · rw [Nat.div_eq_of_lt hky]; simp
        · rw [Nat.mod_eq_of_lt hky]; exact List.getElem?_eq_getElem hky
        · rw [List.flatMap_cons, List.getElem?_append,
            if_pos (by simpa using hky), List.getElem?_map,
            List.getElem?_eq_getElem hky]
          rfl
      · have hk' : k - ys.length < xs.length * ys.length := by
          rw [List.length_cons, Nat.succ_mul] at hk
          omega
        obtain ⟨a, b, ha, hb, hab⟩ := ih (k - ys.length) hk'
        have hle : ys.length ≤ k := Nat.le_of_not_lt hky
        refine ⟨a, b, ?_, ?_, ?_⟩
        · rw [Nat.div_eq_sub_div hpos hle, List.getElem?_cons_succ]; exact ha
        · rw [Nat.mod_eq_sub_mod hle]; exact hb
        · rw [List.flatMap_cons, List.getElem?_append,
            if_neg (by simpa using hky)]
          simpa using hab

/-- Filtering an already-filtered list is the same as filtering once by
membership in both independent filters — the "order-preserving
intersection" reading of double filtering. -/
theorem filterInterval_nested_eq_inter (sel : List Datum) (f1 f2 : String)
    (lo1 hi1 lo2 hi2 : OlliValue) :
    filterInterval (filterInterval sel f1 lo1 hi1) f2 lo2 hi2 =
      sel.filter (fun d =>
        decide (d ∈ filterInterval sel f1 lo1 hi1) &&
        decide (d ∈ filterInterval sel f2 lo2 hi2)) := by
  unfold filterInterval
  rw [List.filter_filter]
  apply List.filter_congr
  intro d hd
  simp [List.mem_filter, hd, Bool.and_comm]

theorem buildGridNode_ok {sel : List Datum} {pt : Option NodeType} {c : Chart}
    {fu : List String} {fv : Option String} {fil : Option FilterValue}
    {g : Option Guide} {i l : Option ℕ} {gi : Option (ℕ × ℕ)} {node : ATNode}
    {xAxis yAxis : Guide}
    (hx : c.axes.find? (fun a => a.axisType = some "x") = some xAxis)
    (hy : c.axes.find? (fun a => a.axisType = some "y") = some yAxis)
    (h : buildGridNode sel pt (.chart c) fu fv fil g i l gi = .ok node) :
    ∃ children desc,
      node = ATNode.mk .grid sel fil gi desc children none ∧
      exceptMap
        (fun (e : ℕ × ((OlliValue × OlliValue) × (OlliValue × OlliValue))) =>
          buildFilteredDataNode
            (filterInterval (filterInterval sel xAxis.field e.2.1.1 e.2.1.2)
              yAxis.field e.2.2.1 e.2.2.2)
            (some .grid) (.chart c) fu fv (some (.grid e.2.1 e.2.2)) none none none
            (some (e.1 / (axisValuesToIntervals yAxis.values).length,
              e.1 % (axisValuesToIntervals yAxis.values).length)))
        ((axisValuesToIntervals xAxis.values).flatMap
          (fun px => (axisValuesToIntervals yAxis.values).map
            (fun py => (px, py)))).enum = .ok children := by
  unfold buildGridNode at h
  split at h
  · exact absurd h (by simp)
  · rename_i spec' c' hceq
    injection hceq with hc
    subst hc
    rw [hx, hy] at h
    split at h
    · rename_i xA yA hxeq hyeq
      injection hxeq with hxeq'
      injection hyeq with hyeq'
      subst hxeq'
      subst hyeq'
      split at h
      · exact absurd h (by simp)
      · rename_i children heq
        obtain ⟨desc, rfl⟩ := finishNode_ok h
        exact ⟨children, desc, rfl, heq⟩
    · rename_i hcontra
      exact (hcontra xAxis yAxis rfl rfl).elim

/-- C6: whenever the grid builder succeeds on a chart with an x-oriented
and a y-oriented axis, the grid node has exactly |xIntervals| ×
|yIntervals| children, laid out as the cross product with x outer and y
inner: child k is a filteredData node carrying gridIndex
(k / |yIntervals|, k mod |yIntervals|), the corresponding pair of
interval bounds as its filter value, and as `selected` the
order-preserving intersection of the x-bound filter and the y-bound
filter each applied independently to the grid's `selected`. -/
theorem C6_grid_children {sel : List Datum} {pt : Option NodeType} {c : Chart}
    {fu : List String} {fv : Option String} {fil : Option FilterValue}
    {g : Option Guide} {i l : Option ℕ} {gi : Option (ℕ × ℕ)} {node : ATNode}
    (xAxis yAxis : Guide)
    (hx : c.axes.find? (fun a => a.axisType = some "x") = some xAxis)
    (hy : c.axes.find? (fun a => a.axisType = some "y") = some yAxis)
    (h : buildGridNode sel pt (.chart c) fu fv fil g i l gi = .ok node) :
    node.children.length =
      (axisValuesToIntervals xAxis.values).length *
        (axisValuesToIntervals yAxis.values).length ∧
    ∀ k, k < (axisValuesToIntervals xAxis.values).length *
        (axisValuesToIntervals yAxis.values).length →
      ∃ child xiv yiv,
        node.children[k]? = some child ∧
        (axisValuesToIntervals xAxis.values)[k /
          (axisValuesToIntervals yAxis.values).length]? = some xiv ∧
        (axisValuesToIntervals yAxis.values)[k %
          (axisValuesToIntervals yAxis.values).length]? = some yiv ∧
        child.type = .filteredData ∧
        child.gridIndex = some (k / (axisValuesToIntervals yAxis.values).length,
          k % (axisValuesToIntervals yAxis.values).length) ∧
        child.filterValue = some (.grid xiv yiv) ∧
        child.selected = sel.filter (fun d =>
          decide (d ∈ filterInterval sel xAxis.field xiv.1 xiv.2) &&
          decide (d ∈ filterInterval sel yAxis.field yiv.1 yiv.2)) := by
  obtain ⟨children, desc, rfl, heq⟩ := buildGridNode_ok hx hy h
  have hlen := exceptMap_ok_length heq
  rw [List.enum_length, flatMap_cross_length] at hlen
  constructor
  · exact hlen
  · intro k hk
    obtain ⟨xiv, yiv, hxk, hyk, hck⟩ := flatMap_cross_getElem?
      (axisValuesToIntervals xAxis.values) (axisValuesToIntervals yAxis.values) k hk
    have hkcart : k < ((axisValuesToIntervals xAxis.values).flatMap
        (fun px => (axisValuesToIntervals yAxis.values).map
          (fun py => (px, py)))).length := by
      rw [flatMap_cross_length]; exact hk
    have hkenum : k < ((axisValuesToIntervals xAxis.values).flatMap
        (fun px => (axisValuesToIntervals yAxis.values).map
          (fun py => (px, py)))).enum.length := by
      rw [List.enum_length]; exact hkcart
    have hkch : k < children.length := by rw [hlen]; exact hk
    have hfk := exceptMap_ok_getElem heq k hkenum hkch
    have hcartk : ((axisValuesToIntervals xAxis.values).flatMap
        (fun px => (axisValuesToIntervals yAxis.values).map
          (fun py => (px, py))))[k] = (xiv, yiv) := by
      rw [List.getElem?_eq_getElem hkcart] at hck
      exact Option.some.inj hck
    rw [List.getElem_enum, hcartk] at hfk
    obtain ⟨hsel', hfil', htype', hgi'⟩ := buildFilteredDataNode_ok_sel hfk
    refine ⟨children[k], xiv, yiv, ?_, hxk, hyk, htype', hgi', hfil', ?_⟩
    · exact List.getElem?_eq_getElem hkch
    · rw [hsel', filterInterval_nested_eq_inter]

/-- C7: a `continuous` legend is unsupported but does not fail: the
legend node is built successfully with no children.  A `discrete`
legend's children are one filteredData node per enumerated legend value,
in order, each filtered by string-compared equality and labelled with
the stringified value. -/
theorem C7_legend (sel : List Datum) (pt : Option NodeType) (spec : OlliVisSpec)
    (fu : List String) (fv : Option String) (fil : Option FilterValue)
    (legend : Guide) (i l : Option ℕ) (gi : Option (ℕ × ℕ)) :
    (legend.type = .continuous →
      ∃ node, buildLegendNode sel pt spec fu fv fil (some legend) i l gi =
        .ok node ∧ node.children = []) ∧
    (legend.type = .discrete →
      ∀ node, buildLegendNode sel pt spec fu fv fil (some legend) i l gi =
          .ok node →
        node.children.map ATNode.selected =
          legend.values.map (filterEquals sel legend.field) ∧
        node.children.map ATNode.filterValue =
          legend.values.map (fun v => some (.str (OlliValue.jsToString v))) ∧
        node.children.length = legend.values.length) := by
  constructor
  · intro hc
    obtain ⟨fi, ti, sc, ty, ax, chn, vals⟩ := legend
    have hty : ty = .continuous := hc
    subst hty
    exact ⟨_, rfl, rfl⟩
  · intro hdisc node h
    unfold buildLegendNode at h
    split at h
    · exact absurd h (by simp)
    · rename_i gd ax hax
      injection hax with hax'
      subst hax'
      split at h
      · exact absurd h (by simp)
      · rename_i children heq
        obtain ⟨desc, rfl⟩ := finishNode_ok h
        rw [hdisc] at heq
        have heq2 : exceptMap
            (fun (e : ℕ × OlliValue) =>
              buildFilteredDataNode (filterEquals sel legend.field e.2)
                (some .legend) spec fu fv
                (some (.str (OlliValue.jsToString e.2))) (some legend)
                (some e.1) (some legend.values.length) none)
            legend.values.enum = .ok children := heq
        refine ⟨?_, ?_, ?_⟩
        · show children.map ATNode.selected = _
          rw [exceptMap_ok_map_eq
              (fun a b hb => (buildFilteredDataNode_ok_sel hb).1) heq2,
            List.enum_eq_enumFrom,
            enumFrom_map_snd_comp (filterEquals sel legend.field)]
        · show children.map ATNode.filterValue = _
          rw [exceptMap_ok_map_eq
              (fun a b hb => (buildFilteredDataNode_ok_sel hb).2.1) heq2,
            List.enum_eq_enumFrom,
            enumFrom_map_snd_comp
              (fun v => some (FilterValue.str (OlliValue.jsToString v)))]
        · show children.length = _
          rw [exceptMap_ok_length heq2, List.enum_length]

/-- C9: for any axis node built with a quantitative scale over an empty
selection, description generation reads `selected[0]` in the aggregate
token and the build fails with an error. -/
theorem C9_empty_axis_throws (t : NodeType) (pt : Option NodeType)
    (spec : OlliVisSpec) (fu : List String) (fv : Option String)
    (fil : Option FilterValue) (axis : Guide) (i l : Option ℕ)
    (gi : Option (ℕ × ℕ)) (ht : t = .xAxis ∨ t = .yAxis)
    (hq : axis.scaleType = some "quantitative") :
    ∃ e, buildAxisNode t [] pt spec fu fv fil (some axis) i l gi = .error e := by
  have hdesc : ∀ (children : List ATNode),
      nodeToDesc (ATNode.mk t [] fil gi [] children none) pt spec fv
        (some axis) i l = .error "Node type not handled in nodeToDesc" := by
    intro children
    rcases ht with rfl | rfl <;>
      simp [nodeToDesc, nodeTypeToHierarchyLevel, hierarchyLevelToTokens,
        exceptMap, tokenFunction, descName, descType, descData, descSize,
        descParent, descAggregate, maximumValue, hq, Except.map,
        ATNode.type, ATNode.selected, ATNode.children]
  cases hres : buildAxisNode t [] pt spec fu fv fil (some axis) i l gi with
  | error e => exact ⟨e, rfl⟩
  | ok node =>
    exfalso
    unfold buildAxisNode at hres
    split at hres
    · exact absurd hres (by simp)
    · split at hres
      · exact absurd hres (by simp)
      · rename_i children heq
        unfold finishNode at hres
        rw [hdesc children] at hres
        simp at hres

/-- C5, counterexample: an all-string tick array whose entries do not
parse as numbers is not a build error: `ensureAxisValuesNumeric` maps it
to NaNs without reporting anything, and the whole tree still builds
(with silently degraded intervals) instead of failing. -/
theorem C5_counterexample :
    ensureAxisValuesNumeric exC5axis.values = ([.num .nan, .num .nan], false) ∧
    (olliVisSpecToTree exC5spec).toOption.isSome = true := by decide

/-- C6, witness: on the concrete point chart `exC6chart` (x ticks 10, 20;
y ticks 5, 10; three intervals each) the grid builder succeeds and the
child count is the product of the interval-list lengths. -/
theorem C6_witness :
    ∃ node, buildGridNode exC6chart.data (some .chart) (.chart exC6chart)
        ["a", "b"] none none none none none none = .ok node ∧
      node.children.length =
        (axisValuesToIntervals exC6x.values).length *
          (axisValuesToIntervals exC6y.values).length := by
  have hok : (buildGridNode exC6chart.data (some .chart) (.chart exC6chart)
      ["a", "b"] none none none none none none).toOption.isSome = true := by
    decide
  cases hres : buildGridNode exC6chart.data (some .chart) (.chart exC6chart)
      ["a", "b"] none none none none none none with
  | error e => rw [hres] at hok; exact absurd hok (by simp [Except.toOption])
  | ok node =>
    exact ⟨node, rfl,
      (C6_grid_children exC6x exC6y (by decide) (by decide) hres).1⟩

/-- C7, witness: the concrete continuous legend builds successfully with
no children. -/
theorem C7_witness :
    Guide.type exC7legend = GuideType.continuous ∧
    ∃ node, buildLegendNode [[("f", qn 1)]] (some .chart) exC1spec ["f"]
        none none (some exC7legend) none none none = .ok node ∧
      node.children = [] :=
  ⟨rfl, (C7_legend [[("f", qn 1)]] (some .chart) exC1spec ["f"] none none
    exC7legend none none none).1 rfl⟩

/-- C9, witness: a chart with a quantitative axis and no data rows fails
to build a tree at all, and the axis builder applied to the empty
selection returns an error. -/
theorem C9_witness :
    (olliVisSpecToTree exC9spec).toOption.isNone = true ∧
    ∃ e, buildAxisNode .xAxis [] none exC9spec ["f"] none none
      (some exC9axis) none none none = .error e :=
  ⟨by decide, C9_empty_axis_throws .xAxis none exC9spec ["f"] none none
    exC9axis none none none (Or.inl rfl) rfl⟩

end Olli
